import Mathlib

/-!
Verification of the mangrove workspace manager core.

This file shallowly embeds the two core subsystems of the repository:
the Apply Transaction Engine (src/command/apply.go: applyCmd, applyStash,
applyMerge) and the Workspace Lifecycle Manager (workspace.go:
CreateWorkspace, cleanupWorkspace, RemoveWorkspace, ListWorkspaces,
WorkspaceLabels, ParseWorkspaceLabel), together with the Repository
Backend primitives of git.go they are built on.

Modelling conventions:
- The backend primitives of git.go shell out to git.  They are modelled
  as pure functions on an explicit state; a primitive either succeeds
  (returning the new state) or fails (returning none, state unchanged).
  Failures that depend on the environment rather than on the modelled
  state (merge conflicts, stash-application conflicts, transient backend
  failures) are injected through explicit Boolean oracle parameters.
- The stash stack is shared between the origin repository and its
  worktree.  This mirrors the code's own assumption (apply.go line 247:
  pop stash in original repo, shared .git): git stores the stash in a
  ref that linked worktrees share.
- A working tree's porcelain change set has two parts: tracked
  modifications and untracked files.  git stash push without -u saves
  only the tracked part and exits 0 as a no-op when that part is empty;
  untracked files always stay in place.
- A conflicted merge or stash application leaves unmerged index entries
  (and MERGE_HEAD for a merge) in the working tree and, for a pop, keeps
  the stash entry.  The conflicted flag abstracts that residue; while it
  is set, git checkout of another branch fails, which is what defeats
  the engine's rollback paths.  Primitives now return the successor
  state together with a success flag, because a failing call can still
  mutate the repository.
-/

/-- The two paths an Apply transaction touches: the origin repository
(repoPath) and the workspace worktree (wtDir). -/
inductive GPath
  | origin
  | wt
deriving DecidableEq, Repr

/-- One stash entry: the message it was pushed with and the change set it
holds.  The stack is shared between origin and worktree (shared .git). -/
structure StashEntry where
  msg : String
  changes : List String
deriving DecidableEq, Repr

/-- State of one repository together with its workspace worktree, as seen
by the Apply Transaction Engine. -/
structure GitState where
  /-- branch currently checked out in the origin repository -/
  curBranch : String
  /-- branch currently checked out in the worktree -/
  wtBranch : String
  /-- local branches (shared between origin and worktree) -/
  branches : List String
  /-- tracked (stashable) modifications in the origin working tree -/
  originChanges : List String
  /-- untracked files in the origin working tree; git stash push without
  -u never stashes these -/
  originUntracked : List String
  /-- tracked (stashable) modifications in the worktree -/
  wtChanges : List String
  /-- untracked files in the worktree -/
  wtUntracked : List String
  /-- the origin working tree holds unmerged index entries left behind by
  a conflicted merge or stash application; while set, checkout fails -/
  originConflicted : Bool
  /-- likewise for the worktree -/
  wtConflicted : Bool
  /-- shared stash stack, most recent entry first -/
  stash : List StashEntry
  /-- commits the worktree branch is ahead of the default base, as
  git rev-list would report them at the origin path (abstracted) -/
  aheadReal : Nat
  /-- commits behind, abstracted likewise -/
  behindReal : Nat
deriving DecidableEq, Repr

/-- Tracked (stashable) modifications at a path. -/
def trackedAt (s : GitState) : GPath → List String
  | .origin => s.originChanges
  | .wt => s.wtChanges

/-- Untracked files at a path. -/
def untrackedAt (s : GitState) : GPath → List String
  | .origin => s.originUntracked
  | .wt => s.wtUntracked

/-- The porcelain change set at a path (git status --porcelain): tracked
modifications plus untracked files. -/
def changesAt (s : GitState) (p : GPath) : List String :=
  trackedAt s p ++ untrackedAt s p

/-- Replace the tracked modifications at a path. -/
def setTracked (s : GitState) : GPath → List String → GitState
  | .origin, c => { s with originChanges := c }
  | .wt, c => { s with wtChanges := c }

/-- Set or clear the unmerged-residue flag at a path. -/
def setConflicted (s : GitState) : GPath → Bool → GitState
  | .origin, b => { s with originConflicted := b }
  | .wt, b => { s with wtConflicted := b }

/-- git stash push -m msg (git.go StashPush).  Without -u the command
saves only tracked modifications; untracked files stay in the working
tree, and when there are no tracked changes it exits 0 without creating
an entry.  The oracle bit injects a backend failure. -/
def stashPush (fails : Bool) (p : GPath) (msg : String) (s : GitState) : GitState × Bool :=
  if fails then (s, false)
  else if trackedAt s p = [] then (s, true)
  else ({ setTracked s p [] with stash := ⟨msg, trackedAt s p⟩ :: s.stash }, true)

/-- git stash pop (git.go StashPop): pops the most recent entry of the
shared stash stack into the working tree at p.  An empty stack fails with
no effect.  A conflicted application KEEPS the stash entry and leaves
unmerged index entries in the working tree: the conflicted flag abstracts
that residue (the partially applied content is not tracked further), and
its presence is what blocks the rollback's later checkout. -/
def stashPop (conflicts : Bool) (p : GPath) (s : GitState) : GitState × Bool :=
  match s.stash with
  | [] => (s, false)
  | e :: rest =>
    if conflicts then (setConflicted s p true, false)
    else ({ setTracked s p (trackedAt s p ++ e.changes) with stash := rest }, true)

/-- git checkout -b newB base in the origin repository (git.go
CheckoutNewBranch).  Fails with no effect when the base is missing, the
new name already exists, the working tree has unmerged entries, or the
oracle injects a backend failure. -/
def checkoutNewBranch (fails : Bool) (newB base : String) (s : GitState) : GitState × Bool :=
  if fails then (s, false)
  else if base ∈ s.branches ∧ newB ∉ s.branches ∧ s.originConflicted = false then
    ({ s with branches := newB :: s.branches, curBranch := newB }, true)
  else (s, false)

/-- git checkout b in the origin repository (git.go CheckoutBranch).
Fails when the branch is missing, and also on a working tree with
unmerged index entries from a conflicted merge or stash application -
exactly the state every rollback path runs in. -/
def checkoutBranch (b : String) (s : GitState) : GitState × Bool :=
  if b ∈ s.branches ∧ s.originConflicted = false then
    ({ s with curBranch := b }, true)
  else (s, false)

/-- git branch -d / -D in the origin repository (git.go BranchDelete).
Deleting the currently checked-out branch fails, as in git; deleting
another branch works even with a conflicted tree. -/
def branchDelete (b : String) (_force : Bool) (s : GitState) : GitState × Bool :=
  if b ∈ s.branches ∧ b ≠ s.curBranch then
    ({ s with branches := s.branches.erase b }, true)
  else (s, false)

/-- git merge b into the current branch of the origin repository (git.go
Merge).  The commit graph is not modelled, so a successful merge changes
none of the tracked components; a conflict (oracle) fails the call AND
leaves MERGE_HEAD plus unmerged index entries behind, abstracted by the
conflicted flag. -/
def mergeBranch (conflicts : Bool) (_b : String) (s : GitState) : GitState × Bool :=
  if conflicts then (setConflicted s .origin true, false) else (s, true)

/-- Run a primitive discarding its error, as the rollback lines of
apply.go do with assignments to the blank identifier: the state effect
of the failing call is kept, only the error is dropped. -/
def tryOp (f : GitState → GitState × Bool) (s : GitState) : GitState :=
  (f s).1

/-- The backend operations the engine can invoke, for call-trace
arguments.  stashRef, stashApplyRef, stashDrop and mergeAbort are the
operations the specification's backend contract lists; git.go defines no
corresponding function, so no embedded code path ever emits them. -/
inductive GitOp
  | stashPushOp (p : GPath) (msg : String)
  | stashPopOp (p : GPath)
  | stashRefOp (p : GPath)
  | stashApplyRefOp (p : GPath) (id : Nat)
  | stashDropOp (p : GPath)
  | checkoutNewOp (newB base : String)
  | checkoutOp (b : String)
  | branchDeleteOp (b : String) (force : Bool)
  | mergeOp (b : String)
  | mergeAbortOp
deriving DecidableEq, Repr

/-- Failure oracle for one stash-transfer transaction. -/
structure StashEnv where
  pushFails : Bool
  checkoutNewFails : Bool
  popConflicts : Bool
deriving DecidableEq, Repr

/-- Failure oracle for one merge-integrate transaction. -/
structure MergeEnv where
  checkoutNewFails : Bool
  mergeConflicts : Bool
deriving DecidableEq, Repr

/-- Result of one engine call: success flag, final state, and the trace
of backend calls attempted (in order). -/
structure ApplyOut where
  ok : Bool
  state : GitState
  trace : List GitOp
deriving DecidableEq, Repr

/-- applyStash (apply.go lines 232-258): stash push in the worktree,
checkout -b in the origin, stash pop in the origin; on a pop failure the
rollback attempts to check the origin out to the BASE branch,
force-delete the new branch and pop the stash back into the worktree,
all errors discarded.  The rollback pop into the worktree reapplies the
just-pushed entry onto the unchanged tree it came from, which cannot
conflict, so its conflict bit is false. -/
def applyStash (newBranch baseBranch : String) (e : StashEnv) (s : GitState) : ApplyOut :=
  let msg := "mgv-apply: " ++ newBranch
  let r1 := stashPush e.pushFails .wt msg s
  if r1.2 = false then ⟨false, r1.1, [.stashPushOp .wt msg]⟩
  else
    let r2 := checkoutNewBranch e.checkoutNewFails newBranch baseBranch r1.1
    if r2.2 = false then
      ⟨false, tryOp (stashPop false .wt) r2.1,
        [.stashPushOp .wt msg, .checkoutNewOp newBranch baseBranch, .stashPopOp .wt]⟩
    else
      let r3 := stashPop e.popConflicts .origin r2.1
      if r3.2 = false then
        let s3 := tryOp (checkoutBranch baseBranch) r3.1
        let s4 := tryOp (branchDelete newBranch true) s3
        let s5 := tryOp (stashPop false .wt) s4
        ⟨false, s5,
          [.stashPushOp .wt msg, .checkoutNewOp newBranch baseBranch, .stashPopOp .origin,
           .checkoutOp baseBranch, .branchDeleteOp newBranch true, .stashPopOp .wt]⟩
      else
        ⟨true, r3.1, [.stashPushOp .wt msg, .checkoutNewOp newBranch baseBranch,
          .stashPopOp .origin]⟩

/-- applyMerge (apply.go lines 261-288): record the origin's current
branch, checkout -b the new branch, merge the worktree branch; on a merge
failure attempt to check the origin back out to the recorded branch and
force-delete the new branch (errors discarded); on success return to the
recorded branch, a failure there being only a warning. -/
def applyMerge (wtBranch newBranch baseBranch : String) (e : MergeEnv) (s : GitState) : ApplyOut :=
  let origBranch := s.curBranch
  let r1 := checkoutNewBranch e.checkoutNewFails newBranch baseBranch s
  if r1.2 = false then ⟨false, r1.1, [.checkoutNewOp newBranch baseBranch]⟩
  else
    let r2 := mergeBranch e.mergeConflicts wtBranch r1.1
    if r2.2 = false then
      let s2 := tryOp (checkoutBranch origBranch) r2.1
      let s3 := tryOp (branchDelete newBranch true) s2
      ⟨false, s3,
        [.checkoutNewOp newBranch baseBranch, .mergeOp wtBranch, .checkoutOp origBranch,
         .branchDeleteOp newBranch true]⟩
    else
      let s2 := tryOp (checkoutBranch origBranch) r2.1
      ⟨true, s2, [.checkoutNewOp newBranch baseBranch, .mergeOp wtBranch,
        .checkoutOp origBranch]⟩

/-- Apply strategy selected for a repository (apply.go method values,
after the plumbing has resolved skip and interactive selection). -/
inductive Method
  | stash
  | merge
deriving DecidableEq, Repr

/-- How the per-repository body of applyCmd left one repository. -/
inductive RepoOutcome
  | statusError
  | dirtyOrigin
  | guardStash
  | guardMerge
  | applied
  | applyFailed
deriving DecidableEq, Repr

/-- Failure oracle for one per-repository pass of applyCmd. -/
structure RepoEnv where
  /-- StatusChangedCount against the worktree fails (apply.go line 115) -/
  wtStatusFails : Bool
  /-- AheadBehind against the origin fails; apply.go line 121 discards
  the error with a blank identifier, leaving zero counts -/
  aheadFails : Bool
  /-- StatusPorcelain against the origin fails (apply.go line 125) -/
  origStatusFails : Bool
  stash : StashEnv
  merge : MergeEnv
deriving DecidableEq, Repr

/-- The per-repository body of applyCmd (apply.go lines 106-223), with
the interactive plumbing resolved: read the worktree branch and changed
count, read ahead/behind at the origin path discarding any error, reject
a dirty origin, evaluate the two guards, then run the selected strategy.
The ahead count the code computes at line 121 is against the repository's
default base; aheadReal abstracts that value. -/
def applyRepo (method : Method) (newBranch baseBranch : String) (e : RepoEnv) (s : GitState) :
    RepoOutcome × GitState :=
  if e.wtStatusFails then (.statusError, s)
  else
    let branch := s.wtBranch
    let changedCount := (changesAt s .wt).length
    let ahead := if e.aheadFails then 0 else s.aheadReal
    if e.origStatusFails then (.statusError, s)
    else if changesAt s .origin ≠ [] then (.dirtyOrigin, s)
    else if method = .stash ∧ changedCount = 0 then (.guardStash, s)
    else if method = .merge ∧ ahead = 0 then (.guardMerge, s)
    else
      match method with
      | .stash =>
        let r := applyStash newBranch baseBranch e.stash s
        (if r.ok then .applied else .applyFailed, r.state)
      | .merge =>
        let r := applyMerge branch newBranch baseBranch e.merge s
        (if r.ok then .applied else .applyFailed, r.state)

/-- Modelled from the spec: the stash-transfer step list of section 4.2
(record the stash's content-addressed reference, apply by that reference
rather than by a latest-stash lookup, drop the entry on success).  A call
trace realises it when it records a stash reference, applies by a
recorded reference, and never performs a latest-stash pop. -/
def appliesByRecordedRef (t : List GitOp) : Bool :=
  (t.any fun o => match o with | .stashRefOp _ => true | _ => false) &&
  (t.any fun o => match o with | .stashApplyRefOp _ _ => true | _ => false) &&
  !(t.any fun o => match o with | .stashPopOp _ => true | _ => false)

/-- A repository whose origin sits on a branch (dev) different from the
chosen base (main), with one dirty worktree file: the smallest scenario
separating the recorded original branch from the base branch. -/
def devState : GitState :=
  { curBranch := "dev", wtBranch := "ws", branches := ["dev", "main"],
    originChanges := [], originUntracked := [], wtChanges := ["f"], wtUntracked := [],
    originConflicted := false, wtConflicted := false, stash := [],
    aheadReal := 1, behindReal := 0 }

/-- A clean worktree whose shared stash stack still holds a stale entry
from an earlier transaction. -/
def staleStashState : GitState :=
  { curBranch := "main", wtBranch := "ws", branches := ["main"],
    originChanges := [], originUntracked := [], wtChanges := [], wtUntracked := [],
    originConflicted := false, wtConflicted := false, stash := [⟨"old", ["g"]⟩],
    aheadReal := 0, behindReal := 0 }

/-- C1 counterexample: a stash-transfer transaction whose origin sits on
dev while the chosen base is main, failing at the pop step with a
conflict, does not end on its pre-call branch dev: the rollback checkout
fails on the conflicted tree, so the origin stays on the new branch. -/
theorem stash_rollback_changes_branch_cex :
    (applyStash "apply/x" "main" ⟨false, false, true⟩ devState).ok = false ∧
    (applyStash "apply/x" "main" ⟨false, false, true⟩ devState).state.curBranch ≠
      devState.curBranch := by decide

/-- C1 (amended): transactions that fail at or before branch creation
preserve the origin's current branch; a successful merge-integrate
returns to it and a successful stash-transfer ends on the new branch by
design; but a transaction that fails at the integrate step (a conflicted
merge or a conflicted stash application) leaves the origin checked out on
the NEW branch: the conflicted tree makes the rollback checkout fail, and
that failure is discarded. -/
theorem apply_branch_invariant_amended
    (wtB newBranch baseBranch : String) (es : StashEnv) (em : MergeEnv) (s : GitState)
    (hcur : s.curBranch ∈ s.branches) (hbase : baseBranch ∈ s.branches)
    (hnew : newBranch ∉ s.branches) (hwt : s.wtChanges ≠ [])
    (hconf : s.originConflicted = false) :
    (applyMerge wtB newBranch baseBranch em s).state.curBranch =
      (if em.checkoutNewFails then s.curBranch
       else if em.mergeConflicts then newBranch else s.curBranch) ∧
    (applyStash newBranch baseBranch es s).state.curBranch =
      (if es.pushFails then s.curBranch
       else if es.checkoutNewFails then s.curBranch else newBranch) := by
  have hne : newBranch ≠ s.curBranch := fun h => hnew (h ▸ hcur)
  obtain ⟨mcf, mc⟩ := em
  obtain ⟨pf, cf, pc⟩ := es
  constructor
  · cases mcf <;> cases mc <;>
      simp [applyMerge, checkoutNewBranch, mergeBranch, checkoutBranch, branchDelete,
        tryOp, setConflicted, hbase, hnew, hcur, hne, hconf]
  · cases pf <;> cases cf <;> cases pc <;>
      simp [applyStash, stashPush, stashPop, checkoutNewBranch, checkoutBranch,
        branchDelete, tryOp, trackedAt, untrackedAt, setTracked, setConflicted,
        hbase, hnew, hwt, hne, hconf]

/-- C3 counterexample: a merge-integrate transaction that fails with a
merge conflict performs no merge-abort backend call, and its rollback
LEAKS the new branch: the conflicted tree blocks the checkout away from
it and the force-delete then refuses to delete the checked-out branch. -/
theorem merge_rollback_no_abort_cex :
    (applyMerge "ws" "apply/x" "main" ⟨false, true⟩ devState).ok = false ∧
    GitOp.mergeAbortOp ∉ (applyMerge "ws" "apply/x" "main" ⟨false, true⟩ devState).trace ∧
    "apply/x" ∈ (applyMerge "ws" "apply/x" "main" ⟨false, true⟩ devState).state.branches ∧
    "apply/x" ∉ devState.branches := by
  decide

/-- C3 (amended): assuming the new-branch name does not already exist
(the section 4.2 precondition) and the origin tree starts clean of
unmerged entries, a failed Apply transaction leaves no branch named
newBranch only when it fails at or before branch creation; when the
integrate step fails with a conflict the branch LEAKS: it exists
afterwards exactly when branch creation succeeded, for either strategy.
The merge-integrate rollback consists only of an attempted checkout of
the recorded original branch and an attempted force-delete; no
merge-abort backend call exists in the code, which is why the rollback
cannot get past the conflicted tree. -/
theorem no_branch_leakage_amended
    (wtB newBranch baseBranch : String) (es : StashEnv) (em : MergeEnv) (s : GitState)
    (hcur : s.curBranch ∈ s.branches) (hbase : baseBranch ∈ s.branches)
    (hnew : newBranch ∉ s.branches) (hwt : s.wtChanges ≠ [])
    (hconf : s.originConflicted = false) :
    ((newBranch ∈ (applyStash newBranch baseBranch es s).state.branches) ↔
      (es.pushFails = false ∧ es.checkoutNewFails = false)) ∧
    ((newBranch ∈ (applyMerge wtB newBranch baseBranch em s).state.branches) ↔
      em.checkoutNewFails = false) ∧
    (applyMerge wtB newBranch baseBranch em s).trace =
      (if em.checkoutNewFails then [.checkoutNewOp newBranch baseBranch]
       else if em.mergeConflicts then
        [.checkoutNewOp newBranch baseBranch, .mergeOp wtB, .checkoutOp s.curBranch,
         .branchDeleteOp newBranch true]
       else [.checkoutNewOp newBranch baseBranch, .mergeOp wtB, .checkoutOp s.curBranch]) := by
  have hne : newBranch ≠ s.curBranch := fun h => hnew (h ▸ hcur)
  obtain ⟨mcf, mc⟩ := em
  obtain ⟨pf, cf, pc⟩ := es
  refine ⟨?_, ?_, ?_⟩
  · cases pf <;> cases cf <;> cases pc <;>
      simp [applyStash, stashPush, stashPop, checkoutNewBranch, checkoutBranch,
        branchDelete, tryOp, trackedAt, untrackedAt, setTracked, setConflicted,
        hbase, hnew, hwt, hne, hconf]
  · cases mcf <;> cases mc <;>
      simp [applyMerge, checkoutNewBranch, mergeBranch, checkoutBranch, branchDelete,
        tryOp, setConflicted, hbase, hnew, hcur, hne, hconf]
  · cases mcf <;> cases mc <;>
      simp [applyMerge, checkoutNewBranch, mergeBranch, checkoutBranch, branchDelete,
        tryOp, setConflicted, hbase, hnew, hcur, hne, hconf]

/-- A worktree whose porcelain change set is a single untracked file
(legal for stash-transfer: changed count 1), with a stale entry on the
shared stash stack. -/
def untrackedOnlyState : GitState :=
  { curBranch := "main", wtBranch := "ws", branches := ["main"],
    originChanges := [], originUntracked := [], wtChanges := [], wtUntracked := ["u"],
    originConflicted := false, wtConflicted := false, stash := [⟨"old", ["g"]⟩],
    aheadReal := 0, behindReal := 0 }

/-- C4 counterexample: with an untracked-only change set the stash push
succeeds as a no-op (git stash push without -u saves nothing), so when
branch creation then fails, the rollback pop injects the stale shared
stash entry into the worktree: its change set afterwards contains a file
it did not contain before the call - not set-equal. -/
theorem stash_untracked_not_restored_cex :
    changesAt untrackedOnlyState .wt ≠ [] ∧
    (applyStash "apply/x" "main" ⟨false, true, false⟩ untrackedOnlyState).ok = false ∧
    "g" ∈ changesAt
      (applyStash "apply/x" "main" ⟨false, true, false⟩ untrackedOnlyState).state .wt ∧
    "g" ∉ changesAt untrackedOnlyState .wt := by decide

/-- C4 (amended): for a stash-transfer transaction whose worktree has at
least one TRACKED modification (so the stash push actually creates an
entry), any failure restores the tracked change set to exactly its
pre-call value, and untracked files are never touched by any path (they
are never stashed); success leaves the tracked set empty and the
untracked files in place.  With an untracked-only change set the push is
a no-op and a later rollback pop can inject an unrelated stale stash
entry instead. -/
theorem stash_failure_restores_worktree
    (newBranch baseBranch : String) (es : StashEnv) (s : GitState)
    (hwt : s.wtChanges ≠ []) :
    (applyStash newBranch baseBranch es s).state.wtChanges =
      (if (applyStash newBranch baseBranch es s).ok then [] else s.wtChanges) ∧
    (applyStash newBranch baseBranch es s).state.wtUntracked = s.wtUntracked := by
  obtain ⟨pf, cf, pc⟩ := es
  by_cases hb : baseBranch ∈ s.branches ∧ newBranch ∉ s.branches ∧
      s.originConflicted = false
  · have hnb : newBranch ≠ baseBranch := fun h => hb.2.1 (h ▸ hb.1)
    cases pf <;> cases cf <;> cases pc <;>
      simp [applyStash, stashPush, stashPop, checkoutNewBranch, checkoutBranch,
        branchDelete, tryOp, trackedAt, untrackedAt, setTracked, setConflicted,
        hwt, hb.1, hb.2.1, hb.2.2, hnb, List.erase_cons_head]
  · cases pf <;> cases cf <;> cases pc <;>
      simp [applyStash, stashPush, stashPop, checkoutNewBranch, checkoutBranch,
        branchDelete, tryOp, trackedAt, untrackedAt, setTracked, setConflicted,
        hwt, hb]

/-- C5 counterexample: a successful stash-transfer transaction records no
stash reference and applies no stash by reference; its trace performs a
latest-stash pop instead. -/
theorem stash_uses_latest_pop_cex :
    (applyStash "apply/x" "main" ⟨false, false, false⟩ devState).ok = true ∧
    appliesByRecordedRef
      (applyStash "apply/x" "main" ⟨false, false, false⟩ devState).trace = false := by decide

/-- C5 (amended): a stash-transfer transaction on a worktree with at
least one tracked modification, whose backend calls all succeed, stashes
only the TRACKED changes under the transaction-scoped message, creates
the new branch, and then pops the LATEST entry of the shared stash stack
directly in the origin repository; the pop both applies the tracked
changes there and removes the entry.  Untracked worktree files are not
stashed and stay behind in the worktree, and no content-addressed stash
reference is ever recorded. -/
theorem stash_transfer_steps_amended
    (newBranch baseBranch : String) (s : GitState)
    (hbase : baseBranch ∈ s.branches) (hnew : newBranch ∉ s.branches)
    (hwt : s.wtChanges ≠ []) (hconf : s.originConflicted = false) :
    (applyStash newBranch baseBranch ⟨false, false, false⟩ s).ok = true ∧
    (applyStash newBranch baseBranch ⟨false, false, false⟩ s).trace =
      [.stashPushOp .wt ("mgv-apply: " ++ newBranch),
       .checkoutNewOp newBranch baseBranch, .stashPopOp .origin] ∧
    (applyStash newBranch baseBranch ⟨false, false, false⟩ s).state.stash = s.stash ∧
    (applyStash newBranch baseBranch ⟨false, false, false⟩ s).state.originChanges =
      s.originChanges ++ s.wtChanges ∧
    (applyStash newBranch baseBranch ⟨false, false, false⟩ s).state.wtChanges = [] ∧
    (applyStash newBranch baseBranch ⟨false, false, false⟩ s).state.wtUntracked =
      s.wtUntracked := by
  simp [applyStash, stashPush, stashPop, checkoutNewBranch, trackedAt, untrackedAt,
    setTracked, hbase, hnew, hwt, hconf]

/-- C6: when the origin repository's porcelain change set is non-empty,
the per-repository pass of applyCmd rejects the repository before any
mutation: the state is returned unchanged and the outcome is the dirty
rejection (or the earlier read error), never a strategy execution and
never even a guard evaluation. -/
theorem dirty_origin_rejected
    (method : Method) (newBranch baseBranch : String) (e : RepoEnv) (s : GitState)
    (h : changesAt s .origin ≠ []) :
    (applyRepo method newBranch baseBranch e s).2 = s ∧
    ((applyRepo method newBranch baseBranch e s).1 = .statusError ∨
     (applyRepo method newBranch baseBranch e s).1 = .dirtyOrigin) := by
  obtain ⟨wf, af, of, es, em⟩ := e
  cases wf <;> cases of <;> simp [applyRepo, h]

/-- C7 counterexample: the engine function applyStash performs no guard
of its own: called on a worktree with changed-file count zero (while a
stale entry sits on the shared stash stack) it reports success and
mutates the repository, leaking the stale stash content onto the new
branch. -/
theorem engine_no_guard_reenforcement_cex :
    (changesAt staleStashState .wt).length = 0 ∧
    (applyStash "apply/x" "main" ⟨false, false, false⟩ staleStashState).ok = true ∧
    (applyStash "apply/x" "main" ⟨false, false, false⟩ staleStashState).state ≠
      staleStashState := by decide

/-- C7 (amended): the guards are evaluated once, in the command loop
before strategy execution: stash-transfer is skipped when the worktree's
changed-file count is 0, and merge-integrate is skipped when the ahead
count - computed against the repository's default base and degraded to
zero when the ahead/behind backend call fails - is 0; the repository's
state is untouched.  The engine functions themselves re-check nothing. -/
theorem guards_command_level_amended
    (method : Method) (newBranch baseBranch : String) (e : RepoEnv) (s : GitState)
    (h0 : e.wtStatusFails = false) (h1 : e.origStatusFails = false)
    (h2 : changesAt s .origin = [])
    (hstash : method = .stash → changesAt s .wt = [])
    (hmerge : method = .merge → (if e.aheadFails then 0 else s.aheadReal) = 0) :
    (applyRepo method newBranch baseBranch e s).2 = s ∧
    (applyRepo method newBranch baseBranch e s).1 =
      (match method with | .stash => .guardStash | .merge => .guardMerge) := by
  cases method
  · simp_all [applyRepo]
  · simp_all [applyRepo]

/-- Witness instantiating the amended branch invariant on devState with a
pop conflict. -/
theorem apply_branch_invariant_amended_witness :
    (devState.curBranch ∈ devState.branches ∧ "main" ∈ devState.branches ∧
      "apply/x" ∉ devState.branches ∧ devState.wtChanges ≠ [] ∧
      devState.originConflicted = false) ∧
    ((applyMerge "ws" "apply/x" "main" ⟨false, false⟩ devState).state.curBranch =
        (if (false : Bool) then devState.curBranch
         else if (false : Bool) then "apply/x" else devState.curBranch) ∧
      (applyStash "apply/x" "main" ⟨false, false, true⟩ devState).state.curBranch =
        (if (false : Bool) then devState.curBranch
         else if (false : Bool) then devState.curBranch else "apply/x")) :=
  ⟨⟨by decide, by decide, by decide, by decide, by decide⟩,
   apply_branch_invariant_amended "ws" "apply/x" "main" ⟨false, false, true⟩ ⟨false, false⟩
     devState (by decide) (by decide) (by decide) (by decide) (by decide)⟩

/-- Witness instantiating the amended no-branch-leakage property on
devState with a pop conflict and a merge conflict. -/
theorem no_branch_leakage_amended_witness :
    (devState.curBranch ∈ devState.branches ∧ "main" ∈ devState.branches ∧
      "apply/x" ∉ devState.branches ∧ devState.wtChanges ≠ [] ∧
      devState.originConflicted = false) ∧
    ((("apply/x" ∈
          (applyStash "apply/x" "main" ⟨false, false, true⟩ devState).state.branches) ↔
        ((false : Bool) = false ∧ (false : Bool) = false)) ∧
      (("apply/x" ∈
          (applyMerge "ws" "apply/x" "main" ⟨false, true⟩ devState).state.branches) ↔
        (false : Bool) = false) ∧
      (applyMerge "ws" "apply/x" "main" ⟨false, true⟩ devState).trace =
        (if (false : Bool) then [GitOp.checkoutNewOp "apply/x" "main"]
         else if (true : Bool) then
          [GitOp.checkoutNewOp "apply/x" "main", GitOp.mergeOp "ws",
           GitOp.checkoutOp devState.curBranch, GitOp.branchDeleteOp "apply/x" true]
         else
          [GitOp.checkoutNewOp "apply/x" "main", GitOp.mergeOp "ws",
           GitOp.checkoutOp devState.curBranch])) :=
  ⟨⟨by decide, by decide, by decide, by decide, by decide⟩,
   no_branch_leakage_amended "ws" "apply/x" "main" ⟨false, false, true⟩ ⟨false, true⟩
     devState (by decide) (by decide) (by decide) (by decide) (by decide)⟩

/-- Witness instantiating the worktree restoration property on devState
with a pop conflict. -/
theorem stash_failure_restores_worktree_witness :
    devState.wtChanges ≠ [] ∧
    ((applyStash "apply/x" "main" ⟨false, false, true⟩ devState).state.wtChanges =
      (if (applyStash "apply/x" "main" ⟨false, false, true⟩ devState).ok then []
       else devState.wtChanges) ∧
    (applyStash "apply/x" "main" ⟨false, false, true⟩ devState).state.wtUntracked =
      devState.wtUntracked) :=
  ⟨by decide,
   stash_failure_restores_worktree "apply/x" "main" ⟨false, false, true⟩ devState (by decide)⟩

/-- Witness instantiating the amended stash-transfer step list on
devState with an all-success oracle. -/
theorem stash_transfer_steps_amended_witness :
    ("main" ∈ devState.branches ∧ "apply/x" ∉ devState.branches ∧
      devState.wtChanges ≠ [] ∧ devState.originConflicted = false) ∧
    ((applyStash "apply/x" "main" ⟨false, false, false⟩ devState).ok = true ∧
      (applyStash "apply/x" "main" ⟨false, false, false⟩ devState).trace =
        [.stashPushOp .wt ("mgv-apply: " ++ "apply/x"),
         .checkoutNewOp "apply/x" "main", .stashPopOp .origin] ∧
      (applyStash "apply/x" "main" ⟨false, false, false⟩ devState).state.stash =
        devState.stash ∧
      (applyStash "apply/x" "main" ⟨false, false, false⟩ devState).state.originChanges =
        devState.originChanges ++ devState.wtChanges ∧
      (applyStash "apply/x" "main" ⟨false, false, false⟩ devState).state.wtChanges = [] ∧
      (applyStash "apply/x" "main" ⟨false, false, false⟩ devState).state.wtUntracked =
        devState.wtUntracked) :=
  ⟨⟨by decide, by decide, by decide, by decide⟩,
   stash_transfer_steps_amended "apply/x" "main" devState (by decide) (by decide)
     (by decide) (by decide)⟩

/-- Witness instantiating the dirty-origin rejection on devState with one
uncommitted origin file. -/
theorem dirty_origin_rejected_witness :
    changesAt ({ devState with originChanges := ["o"] } : GitState) .origin ≠ [] ∧
    ((applyRepo .stash "apply/x" "main"
        ⟨false, false, false, ⟨false, false, false⟩, ⟨false, false⟩⟩
        { devState with originChanges := ["o"] }).2 =
      { devState with originChanges := ["o"] } ∧
      ((applyRepo .stash "apply/x" "main"
          ⟨false, false, false, ⟨false, false, false⟩, ⟨false, false⟩⟩
          { devState with originChanges := ["o"] }).1 = .statusError ∨
       (applyRepo .stash "apply/x" "main"
          ⟨false, false, false, ⟨false, false, false⟩, ⟨false, false⟩⟩
          { devState with originChanges := ["o"] }).1 = .dirtyOrigin)) :=
  ⟨by decide,
   dirty_origin_rejected .stash "apply/x" "main"
     ⟨false, false, false, ⟨false, false, false⟩, ⟨false, false⟩⟩
     { devState with originChanges := ["o"] } (by decide)⟩

/-- Witness instantiating the amended command-level guard behaviour on
the clean worktree of staleStashState. -/
theorem guards_command_level_amended_witness :
    ((⟨false, false, false, ⟨false, false, false⟩, ⟨false, false⟩⟩ : RepoEnv).wtStatusFails =
        false ∧
      (⟨false, false, false, ⟨false, false, false⟩, ⟨false, false⟩⟩ : RepoEnv).origStatusFails =
        false ∧
      changesAt staleStashState .origin = [] ∧
      (Method.stash = Method.stash → changesAt staleStashState .wt = []) ∧
      (Method.stash = Method.merge →
        (if (false : Bool) then 0 else staleStashState.aheadReal) = 0)) ∧
    ((applyRepo .stash "apply/x" "main"
        ⟨false, false, false, ⟨false, false, false⟩, ⟨false, false⟩⟩ staleStashState).2 =
      staleStashState ∧
      (applyRepo .stash "apply/x" "main"
        ⟨false, false, false, ⟨false, false, false⟩, ⟨false, false⟩⟩ staleStashState).1 =
        RepoOutcome.guardStash) :=
  ⟨⟨by decide, by decide, by decide, by decide, by decide⟩,
   guards_command_level_amended .stash "apply/x" "main"
     ⟨false, false, false, ⟨false, false, false⟩, ⟨false, false⟩⟩ staleStashState
     (by decide) (by decide) (by decide) (by decide) (by decide)⟩

/-!
Workspace Lifecycle Manager (workspace.go).

Multi-repository state: each origin repository (keyed by its filesystem
path) has local branches and registered worktrees; the filesystem is the
set of existing directories plus the uncommitted change set of each
worktree directory.  Directory paths are component lists.
-/

/-- A directory path, as its list of components. -/
abbrev DirPath := List String

/-- One repository of a profile (config.go Repo, after GetDefaultBase
resolution). -/
structure RepoCfg where
  name : String
  path : String
  defaultBase : String
deriving DecidableEq, Repr

/-- Branches and registered worktrees of one origin repository. -/
structure RepoGit where
  branches : List String
  worktrees : List DirPath
deriving DecidableEq, Repr

/-- Lifecycle state: per-repository git state keyed by origin path,
existing directories, and per-worktree uncommitted change sets. -/
structure MState where
  repoGits : List (String × RepoGit)
  dirs : List DirPath
  wtChangesFS : List (DirPath × List String)
deriving DecidableEq, Repr

/-- Git state of the repository at an origin path. -/
def gitOf (m : MState) (p : String) : RepoGit :=
  (m.repoGits.lookup p).getD ⟨[], []⟩

/-- Replace the git state of the repository at an origin path. -/
def setGit (m : MState) (p : String) (g : RepoGit) : MState :=
  { m with repoGits := m.repoGits.map fun kv => if kv.1 = p then (p, g) else kv }

/-- os.Stat existence check for a directory. -/
def dirExists (m : MState) (p : DirPath) : Bool := m.dirs.contains p

/-- StatusChangedCount for a worktree directory (number of changed
files). -/
def changedCountFS (m : MState) (p : DirPath) : Nat :=
  ((m.wtChangesFS.lookup p).getD []).length

/-- git worktree add wtPath -b branch base (git.go WorktreeAdd): creates
the branch, registers the worktree and creates its directory.  The oracle
bit abstracts every backend failure cause (including a branch-name
collision); a failed add changes nothing. -/
def worktreeAdd (fails : Bool) (repoPath : String) (wtPath : DirPath) (branch _base : String)
    (m : MState) : Option MState :=
  if fails then none
  else
    let g := gitOf m repoPath
    some { setGit m repoPath ⟨branch :: g.branches, wtPath :: g.worktrees⟩ with
           dirs := wtPath :: m.dirs }

/-- git worktree remove (git.go WorktreeRemove): refuses a worktree that
contains modified or untracked files unless force is given; a successful
removal unregisters the worktree and removes its directory.  It does NOT
delete the branch the worktree was created with - git keeps the branch. -/
def worktreeRemoveM (fails : Bool) (repoPath : String) (wtPath : DirPath) (force : Bool)
    (m : MState) : Option MState :=
  if fails then none
  else if force = false ∧ 0 < changedCountFS m wtPath then none
  else
    let g := gitOf m repoPath
    some { setGit m repoPath ⟨g.branches, g.worktrees.erase wtPath⟩ with
           dirs := m.dirs.erase wtPath }

/-- git branch -d / -D (git.go BranchDelete) at the lifecycle level. -/
def branchDeleteM (fails : Bool) (repoPath branch : String) (_force : Bool)
    (m : MState) : Option MState :=
  if fails then none
  else
    let g := gitOf m repoPath
    some (setGit m repoPath ⟨g.branches.erase branch, g.worktrees⟩)

/-- Whether p lies at or under directory d. -/
def underDir (d p : DirPath) : Bool := p.take d.length == d

/-- os.RemoveAll: removes the directory tree rooted at p. -/
def removeAll (m : MState) (p : DirPath) : MState :=
  { m with dirs := m.dirs.filter fun d => !(underDir p d) }

/-- The worktree directory of a repository inside a workspace. -/
def wtDirOf (wsPath : DirPath) (rp : RepoCfg) : DirPath := wsPath ++ [rp.name]

/-- cleanupWorkspace (workspace.go lines 277-286): for each repository of
the profile whose worktree directory exists, remove the worktree with
force, discarding errors (removeFails injects per-repository backend
failures); then remove the whole workspace directory.  No branch is ever
deleted here. -/
def cleanupLoop (profile : List RepoCfg) (wsPath : DirPath) (removeFails : List String)
    (m : MState) : MState :=
  match profile with
  | [] => m
  | rp :: rest =>
    let acc :=
      if dirExists m (wtDirOf wsPath rp) then
        (worktreeRemoveM (removeFails.contains rp.name) rp.path (wtDirOf wsPath rp) true m).getD m
      else m
    cleanupLoop rest wsPath removeFails acc

def cleanupWorkspace (profile : List RepoCfg) (wsPath : DirPath) (removeFails : List String)
    (m : MState) : MState :=
  removeAll (cleanupLoop profile wsPath removeFails m) wsPath

/-- The worktree-creation loop of CreateWorkspace (workspace.go lines
52-71): for each repository in profile order, worktree add from the
chosen (or default) base into a branch named after the workspace; on the
first failure run the cleanup over the FULL profile and surface the
creation error. -/
def createLoop (rest : List RepoCfg) (wsPath : DirPath) (name : String)
    (baseBranches : List (String × String)) (addFails removeFails : List String)
    (fullProfile : List RepoCfg) (m : MState) : MState × Option String :=
  match rest with
  | [] => (m, none)
  | rp :: rest0 =>
    let base := (baseBranches.lookup rp.name).getD rp.defaultBase
    match worktreeAdd (addFails.contains rp.name) rp.path (wtDirOf wsPath rp) name base m with
    | none =>
      (cleanupWorkspace fullProfile wsPath removeFails m,
       some ("failed to create worktree for " ++ rp.name))
    | some m1 => createLoop rest0 wsPath name baseBranches addFails removeFails fullProfile m1

/-- CreateWorkspace (workspace.go lines 36-96).  The post-create hooks
run arbitrary shell commands and are outside the model; they only run
when every worktree add succeeded, so no failure path is affected. -/
def CreateWorkspaceM (profile : List RepoCfg) (wsPath : DirPath) (name : String)
    (baseBranches : List (String × String)) (addFails removeFails : List String)
    (m : MState) : MState × Option String :=
  if dirExists m wsPath then (m, some "workspace already exists")
  else
    let m0 := { m with dirs := wsPath :: m.dirs }
    createLoop profile wsPath name baseBranches addFails removeFails profile m0

/-- The state after performing exactly the worktree additions for the
given repositories (all succeeding), used to characterise what a
part-way-failed CreateWorkspace had built before its cleanup. -/
def addWorktrees (pre : List RepoCfg) (wsPath : DirPath) (name : String)
    (baseBranches : List (String × String)) (m : MState) : MState :=
  match pre with
  | [] => m
  | rp :: rest =>
    let base := (baseBranches.lookup rp.name).getD rp.defaultBase
    addWorktrees rest wsPath name baseBranches
      ((worktreeAdd false rp.path (wtDirOf wsPath rp) name base m).getD m)

/-- The uncommitted-changes guard of RemoveWorkspace (workspace.go lines
108-122): scan the profile in order; a repository whose worktree
directory is missing, or whose status read fails (statusFails), is
skipped; the first one with a positive changed count aborts. -/
def removeGuard (profile : List RepoCfg) (wsPath : DirPath) (statusFails : List String)
    (m : MState) : Option String :=
  match profile with
  | [] => none
  | rp :: rest =>
    if dirExists m (wtDirOf wsPath rp) = false then removeGuard rest wsPath statusFails m
    else if statusFails.contains rp.name then removeGuard rest wsPath statusFails m
    else if 0 < changedCountFS m (wtDirOf wsPath rp) then
      some (rp.name ++ " has uncommitted changes")
    else removeGuard rest wsPath statusFails m

/-- The per-repository removal loop of RemoveWorkspace (workspace.go
lines 126-150): repositories are processed independently; a failed
worktree removal is reported and skipped (also skipping that
repository's branch deletion), never rolled back; branch deletion
failures are warnings. -/
def removeLoop (profile : List RepoCfg) (wsPath : DirPath) (name : String)
    (deleteBranch force : Bool) (removeFails deleteFails : List String)
    (m : MState) : MState :=
  match profile with
  | [] => m
  | rp :: rest =>
    if dirExists m (wtDirOf wsPath rp) = false then
      removeLoop rest wsPath name deleteBranch force removeFails deleteFails m
    else
      match worktreeRemoveM (removeFails.contains rp.name) rp.path (wtDirOf wsPath rp) force m with
      | none => removeLoop rest wsPath name deleteBranch force removeFails deleteFails m
      | some m1 =>
        let m2 :=
          if deleteBranch then
            (branchDeleteM (deleteFails.contains rp.name) rp.path name force m1).getD m1
          else m1
        removeLoop rest wsPath name deleteBranch force removeFails deleteFails m2

/-- RemoveWorkspace (workspace.go lines 99-159): existence check, the
non-force uncommitted-changes guard, the independent per-repository
removal loop, then removal of the workspace directory tree. -/
def RemoveWorkspaceM (profile : List RepoCfg) (wsPath : DirPath) (name : String)
    (deleteBranch force : Bool) (statusFails removeFails deleteFails : List String)
    (m : MState) : MState × Option String :=
  if dirExists m wsPath = false then (m, some "workspace not found")
  else
    match (if force then none else removeGuard profile wsPath statusFails m) with
    | some e => (m, some e)
    | none =>
      (removeAll (removeLoop profile wsPath name deleteBranch force removeFails deleteFails m)
        wsPath, none)

lemma lookup_map_update (l : List (String × RepoGit)) (p q : String) (g : RepoGit) :
    (l.map fun kv => if kv.1 = p then (p, g) else kv).lookup q =
      if q = p then (if (l.lookup p).isSome then some g else none) else l.lookup q := by
  induction l with
  | nil => by_cases h : q = p <;> simp [List.lookup, h]
  | cons kv l ih =>
    obtain ⟨k, v⟩ := kv
    simp only [List.map_cons]
    by_cases hk : k = p
    · subst hk
      simp only [if_pos rfl]
      by_cases hq : q = k
      · subst hq
        have h1 : (q == q) = true := by simp
        simp [List.lookup, h1]
      · have h1 : (q == k) = false := beq_eq_false_iff_ne.mpr hq
        have h2 : (k == k) = true := by simp
        simp [List.lookup, h1, h2, ih, hq]
    · simp only [if_neg hk]
      by_cases hq : q = k
      · subst hq
        have h1 : (q == q) = true := by simp
        simp [List.lookup, h1, hk]
      · have h1 : (q == k) = false := beq_eq_false_iff_ne.mpr hq
        have h2 : (p == k) = false := beq_eq_false_iff_ne.mpr fun h => hk h.symm
        simp [List.lookup, h1, h2, ih]
        rw [h2]

lemma gitOf_setGit_self (m : MState) (p : String) (g : RepoGit) :
    gitOf (setGit m p g) p =
      (if (m.repoGits.lookup p).isSome then g else ⟨[], []⟩) := by
  by_cases h : (m.repoGits.lookup p).isSome <;>
    simp [gitOf, setGit, lookup_map_update, h]

lemma gitOf_setGit_ne (m : MState) (p q : String) (g : RepoGit) (h : q ≠ p) :
    gitOf (setGit m p g) q = gitOf m q := by
  simp [gitOf, setGit, lookup_map_update, h]

lemma gitOf_withDirs (m : MState) (d : List DirPath) (q : String) :
    gitOf { m with dirs := d } q = gitOf m q := rfl

/-- One worktree-add attempt with a success oracle, as a state
transformer. -/
lemma gitOf_addStep (p : String) (w0 : DirPath) (n b : String) (m : MState) (q : String) :
    gitOf ((worktreeAdd false p w0 n b m).getD m) q =
      (if q = p then
        (if (m.repoGits.lookup p).isSome then
          ⟨n :: (gitOf m p).branches, w0 :: (gitOf m p).worktrees⟩
         else ⟨[], []⟩)
       else gitOf m q) := by
  by_cases hq : q = p
  · subst hq
    simp [worktreeAdd, gitOf_withDirs, gitOf_setGit_self]
  · simp [worktreeAdd, gitOf_withDirs, gitOf_setGit_ne _ _ _ _ hq, hq]

lemma dirs_addStep (p : String) (w0 : DirPath) (n b : String) (m : MState) :
    ((worktreeAdd false p w0 n b m).getD m).dirs = w0 :: m.dirs := rfl

lemma gitOf_removeStep (fb : Bool) (p : String) (w0 : DirPath) (f : Bool) (m : MState)
    (q : String) :
    gitOf ((worktreeRemoveM fb p w0 f m).getD m) q =
      (if fb = true ∨ (f = false ∧ 0 < changedCountFS m w0) then gitOf m q
       else if q = p then
        (if (m.repoGits.lookup p).isSome then
          ⟨(gitOf m p).branches, (gitOf m p).worktrees.erase w0⟩
         else ⟨[], []⟩)
       else gitOf m q) := by
  cases fb
  · by_cases hd : f = false ∧ 0 < changedCountFS m w0
    · simp [worktreeRemoveM, hd]
    · by_cases hq : q = p
      · subst hq
        simp [worktreeRemoveM, hd, gitOf_withDirs, gitOf_setGit_self]
      · simp [worktreeRemoveM, hd, gitOf_withDirs, gitOf_setGit_ne _ _ _ _ hq, hq]
  · simp [worktreeRemoveM]

lemma dirs_removeStep (fb : Bool) (p : String) (w0 : DirPath) (f : Bool) (m : MState) :
    ((worktreeRemoveM fb p w0 f m).getD m).dirs =
      (if fb = true ∨ (f = false ∧ 0 < changedCountFS m w0) then m.dirs
       else m.dirs.erase w0) := by
  cases fb
  · by_cases hd : f = false ∧ 0 < changedCountFS m w0 <;> simp [worktreeRemoveM, hd]
  · simp [worktreeRemoveM]

/-- A worktree removal that is not refused: force set, or a clean
worktree. -/
lemma worktreeRemoveM_accepts (p : String) (w0 : DirPath) (f : Bool) (m : MState)
    (h : f = true ∨ changedCountFS m w0 = 0) :
    worktreeRemoveM false p w0 f m =
      some { setGit m p ⟨(gitOf m p).branches, (gitOf m p).worktrees.erase w0⟩ with
             dirs := m.dirs.erase w0 } := by
  rcases h with h | h
  · simp [worktreeRemoveM, h]
  · simp [worktreeRemoveM, h]

lemma wtChangesFS_removeStep (fb : Bool) (p : String) (w0 : DirPath) (f : Bool)
    (m : MState) :
    ((worktreeRemoveM fb p w0 f m).getD m).wtChangesFS = m.wtChangesFS := by
  cases fb
  · by_cases hd : f = false ∧ 0 < changedCountFS m w0 <;>
      simp [worktreeRemoveM, hd, setGit]
  · simp [worktreeRemoveM]

lemma wtChangesFS_deleteStep (fb : Bool) (p n : String) (f : Bool) (m : MState) :
    ((branchDeleteM fb p n f m).getD m).wtChangesFS = m.wtChangesFS := by
  cases fb <;> simp [branchDeleteM, setGit]

lemma changedCountFS_eq_of_wtChangesFS {m m1 : MState}
    (h : m1.wtChangesFS = m.wtChangesFS) (p : DirPath) :
    changedCountFS m1 p = changedCountFS m p := by
  simp [changedCountFS, h]

lemma gitOf_deleteStep (fb : Bool) (p n : String) (f : Bool) (m : MState) (q : String) :
    gitOf ((branchDeleteM fb p n f m).getD m) q =
      (if fb then gitOf m q
       else if q = p then
        (if (m.repoGits.lookup p).isSome then
          ⟨(gitOf m p).branches.erase n, (gitOf m p).worktrees⟩
         else ⟨[], []⟩)
       else gitOf m q) := by
  cases fb
  · by_cases hq : q = p
    · subst hq
      simp [branchDeleteM, gitOf_setGit_self]
    · simp [branchDeleteM, gitOf_setGit_ne _ _ _ _ hq, hq]
  · simp [branchDeleteM]

lemma dirs_deleteStep (fb : Bool) (p n : String) (f : Bool) (m : MState) :
    ((branchDeleteM fb p n f m).getD m).dirs = m.dirs := by
  cases fb <;> simp [branchDeleteM, setGit]

lemma removeAll_no_under (m : MState) (p : DirPath) :
    ∀ d ∈ (removeAll m p).dirs, underDir p d = false := by
  intro d hd
  simp only [removeAll, List.mem_filter] at hd
  simpa using hd.2

lemma gitOf_removeAll (m : MState) (p : DirPath) (q : String) :
    gitOf (removeAll m p) q = gitOf m q := rfl

lemma wtDirOf_eq_iff (wsPath : DirPath) (rq rp : RepoCfg) :
    wtDirOf wsPath rq = wtDirOf wsPath rp ↔ rq.name = rp.name := by
  constructor
  · intro h
    have h2 := List.append_cancel_left h
    simpa using h2
  · intro h
    simp [wtDirOf, h]

lemma dirExists_iff_mem (m : MState) (p : DirPath) :
    dirExists m p = true ↔ p ∈ m.dirs := by
  simp [dirExists, List.contains]

/-- One worktree-add step preserves the registered-implies-directory
invariant. -/
lemma addStep_memdir (p : String) (w0 : DirPath) (n b : String) (m : MState)
    (path : String) (w : DirPath)
    (h : w ∈ (gitOf m path).worktrees → w ∈ m.dirs) :
    w ∈ (gitOf ((worktreeAdd false p w0 n b m).getD m) path).worktrees →
      w ∈ ((worktreeAdd false p w0 n b m).getD m).dirs := by
  rw [gitOf_addStep, dirs_addStep]
  by_cases hp : path = p
  · by_cases hs : (m.repoGits.lookup p).isSome
    · subst hp
      simp only [if_pos rfl, if_pos hs]
      intro hm
      rcases List.mem_cons.mp hm with h1 | h1
      · exact h1 ▸ List.mem_cons_self _ _
      · exact List.mem_cons_of_mem _ (h h1)
    · subst hp
      simp only [if_pos rfl, if_neg hs]
      intro hm
      simp at hm
  · simp only [if_neg hp]
    intro hm
    exact List.mem_cons_of_mem _ (h hm)

/-- One worktree-add step at a different worktree path keeps the
registration count of w unchanged. -/
lemma addStep_count_ne (p : String) (w0 : DirPath) (n b : String) (m : MState)
    (path : String) (w : DirPath) (hne : w ≠ w0) :
    ((gitOf ((worktreeAdd false p w0 n b m).getD m) path).worktrees.count w) =
      (gitOf m path).worktrees.count w := by
  rw [gitOf_addStep]
  by_cases hp : path = p
  · subst hp
    by_cases hs : (m.repoGits.lookup path).isSome
    · simp only [if_pos rfl, if_pos hs]
      exact List.count_cons_of_ne hne _
    · simp only [if_pos rfl, if_neg hs]
      have : gitOf m path = ⟨[], []⟩ := by
        simp [gitOf, Option.not_isSome_iff_eq_none.mp hs]
      rw [this]
      simp
  · simp [hp]

lemma addWorktrees_count_frame (pre : List RepoCfg) (wsPath : DirPath) (name : String)
    (bb : List (String × String)) (m : MState) (rp : RepoCfg)
    (hname : ∀ rq ∈ pre, rq.name ≠ rp.name) :
    ((gitOf (addWorktrees pre wsPath name bb m) rp.path).worktrees.count
        (wtDirOf wsPath rp)) =
      (gitOf m rp.path).worktrees.count (wtDirOf wsPath rp) := by
  induction pre generalizing m with
  | nil => rfl
  | cons rq rest ih =>
    have hq : rq.name ≠ rp.name := hname rq (List.mem_cons_self _ _)
    have hww : wtDirOf wsPath rp ≠ wtDirOf wsPath rq :=
      fun h => hq ((wtDirOf_eq_iff wsPath rq rp).mp h.symm)
    rw [addWorktrees, ih _ fun r hr => hname r (List.mem_cons_of_mem _ hr),
      addStep_count_ne _ _ _ _ _ _ _ hww]

lemma addWorktrees_count_le (pre : List RepoCfg) (wsPath : DirPath) (name : String)
    (bb : List (String × String)) (m : MState) (rp : RepoCfg)
    (hnd : (pre.map RepoCfg.name).Nodup)
    (h0 : (gitOf m rp.path).worktrees.count (wtDirOf wsPath rp) = 0) :
    ((gitOf (addWorktrees pre wsPath name bb m) rp.path).worktrees.count
        (wtDirOf wsPath rp)) ≤ 1 := by
  induction pre generalizing m with
  | nil => simp [addWorktrees, h0]
  | cons rq rest ih =>
    rw [List.map_cons, List.nodup_cons] at hnd
    by_cases hq : rq.name = rp.name
    · have hrest : ∀ r ∈ rest, r.name ≠ rp.name := by
        intro r hr h
        exact hnd.1 (hq ▸ h ▸ List.mem_map_of_mem RepoCfg.name hr)
      rw [addWorktrees, addWorktrees_count_frame _ _ _ _ _ _ hrest]
      have hww : wtDirOf wsPath rq = wtDirOf wsPath rp := (wtDirOf_eq_iff wsPath rq rp).mpr hq
      rw [gitOf_addStep]
      by_cases hp : rp.path = rq.path
      · by_cases hs : (m.repoGits.lookup rq.path).isSome
        · simp only [if_pos hp, if_pos hs, hww]
          rw [List.count_cons_self, ← hp, h0]
        · simp only [if_pos hp, if_neg hs]
          simp
      · simp only [if_neg hp]
        rw [h0]
        exact Nat.zero_le 1
    · have hww : wtDirOf wsPath rp ≠ wtDirOf wsPath rq :=
        fun h => hq ((wtDirOf_eq_iff wsPath rq rp).mp h.symm)
      rw [addWorktrees]
      exact ih _ hnd.2 (by rw [addStep_count_ne _ _ _ _ _ _ _ hww, h0])

lemma addWorktrees_memdir (pre : List RepoCfg) (wsPath : DirPath) (name : String)
    (bb : List (String × String)) (m : MState) (path : String) (w : DirPath)
    (h : w ∈ (gitOf m path).worktrees → w ∈ m.dirs) :
    w ∈ (gitOf (addWorktrees pre wsPath name bb m) path).worktrees →
      w ∈ (addWorktrees pre wsPath name bb m).dirs := by
  induction pre generalizing m with
  | nil => exact h
  | cons rq rest ih =>
    simp only [addWorktrees]
    exact ih _ (addStep_memdir _ _ _ _ _ _ _ h)

lemma gitOf_of_not_isSome {m : MState} {p : String}
    (hs : ¬(m.repoGits.lookup p).isSome = true) : gitOf m p = ⟨[], []⟩ := by
  simp [gitOf, Option.not_isSome_iff_eq_none.mp hs]

lemma removeStep_absence (fb : Bool) (p : String) (w0 : DirPath) (f : Bool) (m : MState)
    (path : String) (w : DirPath) (h : w ∉ (gitOf m path).worktrees) :
    w ∉ (gitOf ((worktreeRemoveM fb p w0 f m).getD m) path).worktrees := by
  rw [gitOf_removeStep]
  by_cases hr : fb = true ∨ (f = false ∧ 0 < changedCountFS m w0)
  · rw [if_pos hr]
    exact h
  · rw [if_neg hr]
    by_cases hp : path = p
    · subst hp
      by_cases hs : (m.repoGits.lookup path).isSome
      · rw [if_pos rfl, if_pos hs]
        intro hm
        exact h (List.mem_of_mem_erase hm)
      · rw [if_pos rfl, if_neg hs]
        simp
    · rw [if_neg hp]
      exact h

lemma removeStep_count_le (fb : Bool) (p : String) (w0 : DirPath) (f : Bool) (m : MState)
    (path : String) (w : DirPath) :
    ((gitOf ((worktreeRemoveM fb p w0 f m).getD m) path).worktrees.count w) ≤
      (gitOf m path).worktrees.count w := by
  rw [gitOf_removeStep]
  by_cases hr : fb = true ∨ (f = false ∧ 0 < changedCountFS m w0)
  · rw [if_pos hr]
  · rw [if_neg hr]
    by_cases hp : path = p
    · subst hp
      by_cases hs : (m.repoGits.lookup path).isSome
      · rw [if_pos rfl, if_pos hs]
        exact (List.erase_sublist _ _).count_le w
      · rw [if_pos rfl, if_neg hs]
        simp
    · rw [if_neg hp]

lemma removeStep_memdir_ne (fb : Bool) (p : String) (w0 : DirPath) (f : Bool) (m : MState)
    (path : String) (w : DirPath) (hne : w ≠ w0)
    (h : w ∈ (gitOf m path).worktrees → w ∈ m.dirs) :
    w ∈ (gitOf ((worktreeRemoveM fb p w0 f m).getD m) path).worktrees →
      w ∈ ((worktreeRemoveM fb p w0 f m).getD m).dirs := by
  rw [gitOf_removeStep, dirs_removeStep]
  by_cases hr : fb = true ∨ (f = false ∧ 0 < changedCountFS m w0)
  · rw [if_pos hr, if_pos hr]
    exact h
  · rw [if_neg hr, if_neg hr]
    by_cases hp : path = p
    · subst hp
      by_cases hs : (m.repoGits.lookup path).isSome
      · rw [if_pos rfl, if_pos hs]
        intro hm
        exact (List.mem_erase_of_ne hne).mpr (h (List.mem_of_mem_erase hm))
      · rw [if_pos rfl, if_neg hs]
        simp
    · rw [if_neg hp]
      intro hm
      exact (List.mem_erase_of_ne hne).mpr (h hm)

lemma removeStep_branches_eq (fb : Bool) (p : String) (w0 : DirPath) (f : Bool) (m : MState)
    (path : String) :
    (gitOf ((worktreeRemoveM fb p w0 f m).getD m) path).branches =
      (gitOf m path).branches := by
  rw [gitOf_removeStep]
  by_cases hr : fb = true ∨ (f = false ∧ 0 < changedCountFS m w0)
  · rw [if_pos hr]
  · rw [if_neg hr]
    by_cases hp : path = p
    · subst hp
      by_cases hs : (m.repoGits.lookup path).isSome
      · rw [if_pos rfl, if_pos hs]
      · rw [if_pos rfl, if_neg hs, gitOf_of_not_isSome hs]
    · rw [if_neg hp]

lemma deleteStep_worktrees_eq (fb : Bool) (p n : String) (f : Bool) (m : MState)
    (path : String) :
    (gitOf ((branchDeleteM fb p n f m).getD m) path).worktrees =
      (gitOf m path).worktrees := by
  rw [gitOf_deleteStep]
  cases fb
  · by_cases hp : path = p
    · subst hp
      by_cases hs : (m.repoGits.lookup path).isSome
      · simp only [Bool.false_eq_true, if_false, if_pos rfl, if_pos hs]
        simp
      · simp only [Bool.false_eq_true, if_false, if_pos rfl, if_neg hs,
          gitOf_of_not_isSome hs]
        simp
    · simp [hp]
  · simp

lemma cleanupLoop_absence (l : List RepoCfg) (wsPath : DirPath) (rf : List String)
    (m : MState) (path : String) (w : DirPath) (h : w ∉ (gitOf m path).worktrees) :
    w ∉ (gitOf (cleanupLoop l wsPath rf m) path).worktrees := by
  induction l generalizing m with
  | nil => exact h
  | cons rq rest ih =>
    simp only [cleanupLoop]
    by_cases hd : dirExists m (wtDirOf wsPath rq)
    · rw [if_pos hd]
      exact ih _ (removeStep_absence _ _ _ _ _ _ _ h)
    · rw [if_neg hd]
      exact ih _ h

lemma cleanupLoop_branches (l : List RepoCfg) (wsPath : DirPath) (rf : List String)
    (m : MState) (path : String) :
    (gitOf (cleanupLoop l wsPath rf m) path).branches = (gitOf m path).branches := by
  induction l generalizing m with
  | nil => rfl
  | cons rq rest ih =>
    simp only [cleanupLoop]
    by_cases hd : dirExists m (wtDirOf wsPath rq)
    · rw [if_pos hd, ih, removeStep_branches_eq]
    · rw [if_neg hd, ih]

lemma cleanupLoop_not_mem (l : List RepoCfg) (wsPath : DirPath) (rf : List String)
    (m : MState) (rp : RepoCfg) (hrp : rp ∈ l) (hrf : rp.name ∉ rf)
    (hnd : (l.map RepoCfg.name).Nodup)
    (hc : (gitOf m rp.path).worktrees.count (wtDirOf wsPath rp) ≤ 1)
    (hd : wtDirOf wsPath rp ∈ (gitOf m rp.path).worktrees → wtDirOf wsPath rp ∈ m.dirs) :
    wtDirOf wsPath rp ∉ (gitOf (cleanupLoop l wsPath rf m) rp.path).worktrees := by
  induction l generalizing m with
  | nil => simp at hrp
  | cons rq rest ih =>
    rw [List.map_cons, List.nodup_cons] at hnd
    simp only [cleanupLoop]
    rcases List.mem_cons.mp hrp with heq | hmem
    · subst heq
      by_cases hdir : dirExists m (wtDirOf wsPath rp)
      · rw [if_pos hdir]
        apply cleanupLoop_absence
        have hfb : rf.contains rp.name = false := by
          simp [List.contains]
          exact hrf
        rw [gitOf_removeStep, hfb]
        simp only [Bool.false_eq_true, if_false, if_pos rfl]
        by_cases hs : (m.repoGits.lookup rp.path).isSome
        · rw [if_pos hs]
          intro hmem2
          have hcnt := List.count_erase_self (wtDirOf wsPath rp) (gitOf m rp.path).worktrees
          have hpos : 0 <
              ((gitOf m rp.path).worktrees.erase (wtDirOf wsPath rp)).count
                (wtDirOf wsPath rp) :=
            List.count_pos_iff.mpr hmem2
          omega
        · rw [if_neg hs]
          simp
      · rw [if_neg hdir]
        have habs : wtDirOf wsPath rp ∉ (gitOf m rp.path).worktrees := by
          intro hm
          exact hdir ((dirExists_iff_mem m _).mpr (hd hm))
        exact cleanupLoop_absence _ _ _ _ _ _ habs
    · have hqname : rq.name ≠ rp.name := by
        intro h
        exact hnd.1 (h ▸ List.mem_map_of_mem RepoCfg.name hmem)
      have hww : wtDirOf wsPath rp ≠ wtDirOf wsPath rq :=
        fun h => hqname (((wtDirOf_eq_iff wsPath rp rq).mp h).symm)
      by_cases hdir : dirExists m (wtDirOf wsPath rq)
      · rw [if_pos hdir]
        exact ih _ hmem hnd.2
          (le_trans (removeStep_count_le _ _ _ _ _ _ _) hc)
          (removeStep_memdir_ne _ _ _ _ _ _ _ hww hd)
      · rw [if_neg hdir]
        exact ih _ hmem hnd.2 hc hd

lemma createLoop_eq (rest : List RepoCfg) (wsPath : DirPath) (name : String)
    (bb : List (String × String)) (af rf : List String) (full : List RepoCfg) (m : MState) :
    createLoop rest wsPath name bb af rf full m =
      (match rest.find? (fun rp => af.contains rp.name) with
       | some fr =>
         (cleanupWorkspace full wsPath rf
            (addWorktrees (rest.takeWhile fun rp => !(af.contains rp.name)) wsPath name bb m),
          some ("failed to create worktree for " ++ fr.name))
       | none => (addWorktrees rest wsPath name bb m, none)) := by
  induction rest generalizing m with
  | nil => rfl
  | cons rp rest0 ih =>
    cases hfb : af.contains rp.name
    · have hfind : (rp :: rest0).find? (fun r => af.contains r.name) =
          rest0.find? (fun r => af.contains r.name) :=
        List.find?_cons_of_neg _ (by simp only [hfb]; simp)
      have htake : (rp :: rest0).takeWhile (fun r => !(af.contains r.name)) =
          rp :: rest0.takeWhile (fun r => !(af.contains r.name)) :=
        List.takeWhile_cons_of_pos (by simp only [hfb, Bool.not_false])
      rw [hfind] at *
      simp only [createLoop, hfb, worktreeAdd, Bool.false_eq_true, if_false, htake,
        addWorktrees]
      rw [ih]
      simp [worktreeAdd, addWorktrees]
    · have hfind : (rp :: rest0).find? (fun r => af.contains r.name) = some rp :=
        List.find?_cons_of_pos _ (by simpa using hfb)
      have htake : (rp :: rest0).takeWhile (fun r => !(af.contains r.name)) = [] :=
        List.takeWhile_cons_of_neg (by simp only [hfb, Bool.not_true]; simp)

      simp only [createLoop, hfb, worktreeAdd, if_true, hfind, htake, addWorktrees]

/-- Two repositories with distinct origin paths, each with only a main
branch, and an empty filesystem: the smallest Create scenario whose
second worktree creation can fail. -/
def cexProfile : List RepoCfg := [⟨"r1", "p1", "main"⟩, ⟨"r2", "p2", "main"⟩]

def cexInitState : MState :=
  ⟨[("p1", ⟨["main"], []⟩), ("p2", ⟨["main"], []⟩)], [], []⟩

/-- C2 counterexample: when the second repository's worktree creation
fails, the cleanup removes the first repository's worktree and the
workspace directory and surfaces an error, but the branch W created in
the first repository remains - cleanupWorkspace never deletes branches
(git worktree remove does not delete the worktree's branch). -/
theorem create_cleanup_leaves_branch_cex :
    (CreateWorkspaceM cexProfile ["ws", "dev"] "W" [] ["r2"] [] cexInitState).2.isSome =
      true ∧
    "W" ∈ (gitOf (CreateWorkspaceM cexProfile ["ws", "dev"] "W" [] ["r2"] []
      cexInitState).1 "p1").branches ∧
    dirExists (CreateWorkspaceM cexProfile ["ws", "dev"] "W" [] ["r2"] []
      cexInitState).1 ["ws", "dev"] = false ∧
    wtDirOf ["ws", "dev"] ⟨"r1", "p1", "main"⟩ ∉
      (gitOf (CreateWorkspaceM cexProfile ["ws", "dev"] "W" [] ["r2"] []
        cexInitState).1 "p1").worktrees := by
  decide

/-- C2 (amended): if Create fails at some repository's worktree creation,
then - provided the cleanup's own backend calls succeed - the workspace
directory and everything under it is gone, no worktree for any repository
of the profile remains registered, and the original creation error (that
of the first failing repository) is surfaced while cleanup errors are
swallowed; however the branch lists are exactly those after the pre-failure
worktree additions: the branches named after the workspace that were
created before the failure are NOT deleted and remain. -/
theorem create_atomicity_amended
    (profile : List RepoCfg) (wsPath : DirPath) (name : String)
    (bb : List (String × String)) (af : List String) (m : MState)
    (hfail : (profile.find? fun rp => af.contains rp.name).isSome = true)
    (hws : dirExists m wsPath = false)
    (hnd : (profile.map RepoCfg.name).Nodup)
    (hwt : ∀ rp ∈ profile, wtDirOf wsPath rp ∉ (gitOf m rp.path).worktrees) :
    (CreateWorkspaceM profile wsPath name bb af [] m).2 =
      (profile.find? fun rp => af.contains rp.name).map
        (fun rp => "failed to create worktree for " ++ rp.name) ∧
    (∀ d ∈ (CreateWorkspaceM profile wsPath name bb af [] m).1.dirs,
      underDir wsPath d = false) ∧
    (∀ rp ∈ profile,
      wtDirOf wsPath rp ∉
        (gitOf (CreateWorkspaceM profile wsPath name bb af [] m).1 rp.path).worktrees) ∧
    (∀ p, (gitOf (CreateWorkspaceM profile wsPath name bb af [] m).1 p).branches =
      (gitOf (addWorktrees (profile.takeWhile fun rp => !(af.contains rp.name)) wsPath name
        bb { m with dirs := wsPath :: m.dirs }) p).branches) := by
  obtain ⟨fr, hfr⟩ := Option.isSome_iff_exists.mp hfail
  have hun : CreateWorkspaceM profile wsPath name bb af [] m =
      (cleanupWorkspace profile wsPath []
         (addWorktrees (profile.takeWhile fun rp => !(af.contains rp.name)) wsPath name bb
           { m with dirs := wsPath :: m.dirs }),
       some ("failed to create worktree for " ++ fr.name)) := by
    rw [CreateWorkspaceM, if_neg (by simp [hws])]
    rw [createLoop_eq, hfr]
  refine ⟨?_, ?_, ?_, ?_⟩
  · rw [hun, hfr]
    rfl
  · rw [hun]
    exact removeAll_no_under _ _
  · intro rp hrp
    rw [hun]
    show wtDirOf wsPath rp ∉
      (gitOf (removeAll (cleanupLoop profile wsPath [] _) wsPath) rp.path).worktrees
    rw [gitOf_removeAll]
    apply cleanupLoop_not_mem _ _ _ _ _ hrp (by simp) hnd
    · apply addWorktrees_count_le
      · exact hnd.sublist ((List.takeWhile_sublist _).map _)
      · rw [gitOf_withDirs]
        exact List.count_eq_zero.mpr (hwt rp hrp)
    · apply addWorktrees_memdir
      intro hm
      rw [gitOf_withDirs] at hm
      exact absurd hm (hwt rp hrp)
  · intro p
    rw [hun]
    show (gitOf (removeAll (cleanupLoop profile wsPath [] _) wsPath) p).branches = _
    rw [gitOf_removeAll, cleanupLoop_branches]

/-- Witness instantiating the amended Create atomicity statement on the
two-repository profile with the second creation failing. -/
theorem create_atomicity_amended_witness :
    ((cexProfile.find? fun rp => (["r2"] : List String).contains rp.name).isSome = true ∧
      dirExists cexInitState ["ws", "dev"] = false ∧
      (cexProfile.map RepoCfg.name).Nodup ∧
      (∀ rp ∈ cexProfile,
        wtDirOf ["ws", "dev"] rp ∉ (gitOf cexInitState rp.path).worktrees)) ∧
    ((CreateWorkspaceM cexProfile ["ws", "dev"] "W" [] ["r2"] [] cexInitState).2 =
      (cexProfile.find? fun rp => (["r2"] : List String).contains rp.name).map
        (fun rp => "failed to create worktree for " ++ rp.name) ∧
    (∀ d ∈ (CreateWorkspaceM cexProfile ["ws", "dev"] "W" [] ["r2"] [] cexInitState).1.dirs,
      underDir ["ws", "dev"] d = false) ∧
    (∀ rp ∈ cexProfile,
      wtDirOf ["ws", "dev"] rp ∉
        (gitOf (CreateWorkspaceM cexProfile ["ws", "dev"] "W" [] ["r2"] []
          cexInitState).1 rp.path).worktrees) ∧
    (∀ p, (gitOf (CreateWorkspaceM cexProfile ["ws", "dev"] "W" [] ["r2"] []
        cexInitState).1 p).branches =
      (gitOf (addWorktrees (cexProfile.takeWhile fun rp =>
          !((["r2"] : List String).contains rp.name)) ["ws", "dev"] "W" []
        { cexInitState with dirs := ["ws", "dev"] :: cexInitState.dirs }) p).branches)) :=
  ⟨⟨by decide, by decide, by decide, by decide⟩,
   create_atomicity_amended cexProfile ["ws", "dev"] "W" [] ["r2"] cexInitState
     (by decide) (by decide) (by decide) (by decide)⟩

lemma removeLoop_absence (l : List RepoCfg) (wsPath : DirPath) (name : String)
    (db f : Bool) (rf df : List String) (m : MState) (path : String) (w : DirPath)
    (h : w ∉ (gitOf m path).worktrees) :
    w ∉ (gitOf (removeLoop l wsPath name db f rf df m) path).worktrees := by
  induction l generalizing m with
  | nil => exact h
  | cons rq rest ih =>
    simp only [removeLoop]
    by_cases hdir : dirExists m (wtDirOf wsPath rq) = false
    · rw [if_pos hdir]
      exact ih _ h
    · rw [if_neg hdir]
      cases hM : worktreeRemoveM (rf.contains rq.name) rq.path (wtDirOf wsPath rq) f m with
      | none => exact ih _ h
      | some m1 =>
        have hgd : (worktreeRemoveM (rf.contains rq.name) rq.path (wtDirOf wsPath rq) f
            m).getD m = m1 := by rw [hM]; rfl
        have h1 : w ∉ (gitOf m1 path).worktrees := by
          rw [← hgd]
          exact removeStep_absence _ _ _ _ _ _ _ h
        cases db
        · simp only [Bool.false_eq_true, if_false]
          exact ih _ h1
        · simp only [if_true]
          apply ih
          rw [deleteStep_worktrees_eq]
          exact h1

lemma removeLoop_not_mem (l : List RepoCfg) (wsPath : DirPath) (name : String)
    (db f : Bool) (rf df : List String) (m : MState) (rp : RepoCfg)
    (hrp : rp ∈ l) (hnrf : rp.name ∉ rf)
    (hclean : f = true ∨ changedCountFS m (wtDirOf wsPath rp) = 0)
    (hnd : (l.map RepoCfg.name).Nodup)
    (hc : (gitOf m rp.path).worktrees.count (wtDirOf wsPath rp) ≤ 1)
    (hd : wtDirOf wsPath rp ∈ (gitOf m rp.path).worktrees → wtDirOf wsPath rp ∈ m.dirs) :
    wtDirOf wsPath rp ∉ (gitOf (removeLoop l wsPath name db f rf df m) rp.path).worktrees := by
  induction l generalizing m with
  | nil => simp at hrp
  | cons rq rest ih =>
    rw [List.map_cons, List.nodup_cons] at hnd
    simp only [removeLoop]
    rcases List.mem_cons.mp hrp with heq | hmem
    · subst heq
      by_cases hdir : dirExists m (wtDirOf wsPath rp) = false
      · rw [if_pos hdir]
        have habs : wtDirOf wsPath rp ∉ (gitOf m rp.path).worktrees := by
          intro hm
          rw [(dirExists_iff_mem m _).mpr (hd hm)] at hdir
          simp at hdir
        exact removeLoop_absence _ _ _ _ _ _ _ _ _ _ habs
      · rw [if_neg hdir]
        have hfb : rf.contains rp.name = false := by
          simp [List.contains]
          exact hnrf
        cases hM : worktreeRemoveM (rf.contains rp.name) rp.path (wtDirOf wsPath rp) f m with
        | none =>
          rw [hfb, worktreeRemoveM_accepts rp.path (wtDirOf wsPath rp) f m hclean] at hM
          simp at hM
        | some m1 =>
          have hgd : (worktreeRemoveM (rf.contains rp.name) rp.path (wtDirOf wsPath rp) f
              m).getD m = m1 := by rw [hM]; rfl
          have hnr : ¬((rf.contains rp.name) = true ∨
              (f = false ∧ 0 < changedCountFS m (wtDirOf wsPath rp))) := by
            rw [hfb]
            rcases hclean with h | h
            · simp [h]
            · simp [h]
          have h1 : wtDirOf wsPath rp ∉ (gitOf m1 rp.path).worktrees := by
            rw [← hgd, gitOf_removeStep, if_neg hnr, if_pos rfl]
            by_cases hs : (m.repoGits.lookup rp.path).isSome
            · rw [if_pos hs]
              intro hmem2
              have hcnt := List.count_erase_self (wtDirOf wsPath rp)
                (gitOf m rp.path).worktrees
              have hpos : 0 <
                  ((gitOf m rp.path).worktrees.erase (wtDirOf wsPath rp)).count
                    (wtDirOf wsPath rp) :=
                List.count_pos_iff.mpr hmem2
              omega
            · rw [if_neg hs]
              simp
          cases db
          · simp only [Bool.false_eq_true, if_false]
            exact removeLoop_absence _ _ _ _ _ _ _ _ _ _ h1
          · simp only [if_true]
            apply removeLoop_absence
            rw [deleteStep_worktrees_eq]
            exact h1
    · have hqname : rq.name ≠ rp.name := by
        intro h
        exact hnd.1 (h ▸ List.mem_map_of_mem RepoCfg.name hmem)
      have hww : wtDirOf wsPath rp ≠ wtDirOf wsPath rq :=
        fun h => hqname (((wtDirOf_eq_iff wsPath rp rq).mp h).symm)
      by_cases hdir : dirExists m (wtDirOf wsPath rq) = false
      · rw [if_pos hdir]
        exact ih _ hmem hclean hnd.2 hc hd
      · rw [if_neg hdir]
        cases hM : worktreeRemoveM (rf.contains rq.name) rq.path (wtDirOf wsPath rq) f m with
        | none => exact ih _ hmem hclean hnd.2 hc hd
        | some m1 =>
          have hgd : (worktreeRemoveM (rf.contains rq.name) rq.path (wtDirOf wsPath rq) f
              m).getD m = m1 := by rw [hM]; rfl
          have hclean1 : f = true ∨ changedCountFS m1 (wtDirOf wsPath rp) = 0 := by
            rcases hclean with h | h
            · exact Or.inl h
            · right
              rw [← hgd,
                changedCountFS_eq_of_wtChangesFS (wtChangesFS_removeStep _ _ _ _ _) _]
              exact h
          have hc1 : (gitOf m1 rp.path).worktrees.count (wtDirOf wsPath rp) ≤ 1 := by
            rw [← hgd]
            exact le_trans (removeStep_count_le _ _ _ _ _ _ _) hc
          have hd1 : wtDirOf wsPath rp ∈ (gitOf m1 rp.path).worktrees →
              wtDirOf wsPath rp ∈ m1.dirs := by
            rw [← hgd]
            exact removeStep_memdir_ne _ _ _ _ _ _ _ hww hd
          cases db
          · simp only [Bool.false_eq_true, if_false]
            exact ih _ hmem hclean1 hnd.2 hc1 hd1
          · simp only [if_true]
            have hclean2 : f = true ∨
                changedCountFS ((branchDeleteM (df.contains rq.name) rq.path name f
                  m1).getD m1) (wtDirOf wsPath rp) = 0 := by
              rcases hclean1 with h | h
              · exact Or.inl h
              · right
                rw [changedCountFS_eq_of_wtChangesFS (wtChangesFS_deleteStep _ _ _ _ _) _]
                exact h
            apply ih _ hmem hclean2 hnd.2
            · rw [deleteStep_worktrees_eq]
              exact hc1
            · rw [deleteStep_worktrees_eq, dirs_deleteStep]
              exact hd1

/-- Whether the non-force guard of RemoveWorkspace observes a dirty
worktree: some repository whose worktree directory exists, whose status
read succeeds, and whose changed count is positive. -/
def guardTrips (profile : List RepoCfg) (wsPath : DirPath) (sf : List String)
    (m : MState) : Bool :=
  profile.any fun rp =>
    dirExists m (wtDirOf wsPath rp) && !(sf.contains rp.name) &&
      decide (0 < changedCountFS m (wtDirOf wsPath rp))

lemma removeGuard_isSome (profile : List RepoCfg) (wsPath : DirPath) (sf : List String)
    (m : MState) :
    (removeGuard profile wsPath sf m).isSome = guardTrips profile wsPath sf m := by
  induction profile with
  | nil => rfl
  | cons rp rest ih =>
    simp only [removeGuard, guardTrips, List.any_cons]
    by_cases h1 : dirExists m (wtDirOf wsPath rp) = false
    · rw [if_pos h1, h1]
      simpa [guardTrips] using ih
    · rw [if_neg h1]
      have h1t : dirExists m (wtDirOf wsPath rp) = true := by simpa using h1
      by_cases h2 : sf.contains rp.name = true
      · rw [if_pos h2, h1t, h2]
        simpa [guardTrips] using ih
      · have h2f : sf.contains rp.name = false := by simpa using h2
        rw [if_neg h2, h1t, h2f]
        by_cases h3 : 0 < changedCountFS m (wtDirOf wsPath rp)
        · rw [if_pos h3]
          simp [h3]
        · rw [if_neg h3]
          simpa [guardTrips, h3] using ih

/-- A one-repository workspace whose worktree is dirty (one changed
file) but whose status read fails. -/
def rmProfile : List RepoCfg := [⟨"r1", "p1", "main"⟩]

def rmState : MState :=
  ⟨[("p1", ⟨["main", "W"], [["ws", "dev", "r1"]]⟩)],
   [["ws", "dev"], ["ws", "dev", "r1"]],
   [(["ws", "dev", "r1"], ["f"])]⟩

/-- C9 counterexample: without force, a worktree with a non-empty change
set whose changed-count read fails is skipped by the guard (workspace.go
lines 115-117 discard the status error with continue), so Remove proceeds
instead of aborting.  git worktree remove then refuses the dirty worktree
(force is unset) and the refusal is merely reported, so the worktree
STAYS REGISTERED - yet the final os.RemoveAll still deletes the whole
workspace directory tree, uncommitted changes included, and no error is
returned. -/
theorem remove_guard_skips_status_failure_cex :
    0 < changedCountFS rmState ["ws", "dev", "r1"] ∧
    (RemoveWorkspaceM rmProfile ["ws", "dev"] "W" false false ["r1"] [] [] rmState).2 =
      none ∧
    ["ws", "dev", "r1"] ∈
      (gitOf (RemoveWorkspaceM rmProfile ["ws", "dev"] "W" false false ["r1"] [] []
        rmState).1 "p1").worktrees ∧
    ["ws", "dev", "r1"] ∉
      (RemoveWorkspaceM rmProfile ["ws", "dev"] "W" false false ["r1"] [] []
        rmState).1.dirs := by
  decide

/-- C9 (amended): Remove processes repositories independently in profile
order.  Unless force is set, it aborts with an error and touches nothing
when some existing worktree has a non-empty change set WHOSE STATUS READ
SUCCEEDS (a failed status read is skipped by the guard).  Otherwise it
reports no error and removes the workspace directory tree at the end;
each repository is handled independently of failures on the others, and
its worktree ends unregistered provided the backend does not refuse the
removal - in particular force is set or that worktree is clean, since
git worktree remove without force refuses a worktree with uncommitted
changes (the refusal is only reported, and os.RemoveAll deletes the
directory regardless). -/
theorem remove_independent_amended
    (profile : List RepoCfg) (wsPath : DirPath) (name : String)
    (deleteBranch force : Bool) (sf rf df : List String) (m : MState)
    (hws : dirExists m wsPath = true)
    (hnd : (profile.map RepoCfg.name).Nodup)
    (hc : ∀ rp ∈ profile, (gitOf m rp.path).worktrees.count (wtDirOf wsPath rp) ≤ 1)
    (hd : ∀ rp ∈ profile, wtDirOf wsPath rp ∈ (gitOf m rp.path).worktrees →
            wtDirOf wsPath rp ∈ m.dirs) :
    if force = false ∧ guardTrips profile wsPath sf m = true then
      (RemoveWorkspaceM profile wsPath name deleteBranch force sf rf df m).1 = m ∧
      (RemoveWorkspaceM profile wsPath name deleteBranch force sf rf df m).2.isSome = true
    else
      (RemoveWorkspaceM profile wsPath name deleteBranch force sf rf df m).2 = none ∧
      (∀ d ∈ (RemoveWorkspaceM profile wsPath name deleteBranch force sf rf df m).1.dirs,
        underDir wsPath d = false) ∧
      (∀ rp ∈ profile, rp.name ∉ rf →
        (force = true ∨ changedCountFS m (wtDirOf wsPath rp) = 0) →
        wtDirOf wsPath rp ∉
          (gitOf (RemoveWorkspaceM profile wsPath name deleteBranch force sf rf df m).1
            rp.path).worktrees) := by
  by_cases hcase : force = false ∧ guardTrips profile wsPath sf m = true
  · rw [if_pos hcase]
    obtain ⟨hf, hg⟩ := hcase
    have hg2 : (removeGuard profile wsPath sf m).isSome = true := by
      rw [removeGuard_isSome]
      exact hg
    obtain ⟨e, he⟩ := Option.isSome_iff_exists.mp hg2
    rw [RemoveWorkspaceM, if_neg (by simp [hws]), hf]
    simp only [Bool.false_eq_true, if_false, he]
    simp
  · rw [if_neg hcase]
    have hnone : (if force then none else removeGuard profile wsPath sf m) =
        (none : Option String) := by
      cases hfo : force
      · have hgf : guardTrips profile wsPath sf m = false := by
          rcases Bool.eq_false_or_eq_true (guardTrips profile wsPath sf m) with h | h
          · rw [hfo] at hcase
            exact absurd ⟨rfl, h⟩ hcase
          · exact h
        have h2 : (removeGuard profile wsPath sf m).isSome = false := by
          rw [removeGuard_isSome, hgf]
        simp only [Bool.false_eq_true, if_false]
        exact Option.not_isSome_iff_eq_none.mp (by simp [h2])
      · simp
    rw [RemoveWorkspaceM, if_neg (by simp [hws]), hnone]
    refine ⟨rfl, removeAll_no_under _ _, ?_⟩
    intro rp hrp hnrf hclean
    show wtDirOf wsPath rp ∉
      (gitOf (removeAll (removeLoop profile wsPath name deleteBranch force rf df m)
        wsPath) rp.path).worktrees
    rw [gitOf_removeAll]
    exact removeLoop_not_mem _ _ _ _ _ _ _ _ _ hrp hnrf hclean hnd (hc rp hrp) (hd rp hrp)

/-- Witness instantiating the amended Remove statement on a clean
one-repository workspace with force unset. -/
theorem remove_independent_amended_witness :
    (dirExists { rmState with wtChangesFS := [] } ["ws", "dev"] = true ∧
      (rmProfile.map RepoCfg.name).Nodup ∧
      (∀ rp ∈ rmProfile,
        (gitOf { rmState with wtChangesFS := [] } rp.path).worktrees.count
          (wtDirOf ["ws", "dev"] rp) ≤ 1) ∧
      (∀ rp ∈ rmProfile,
        wtDirOf ["ws", "dev"] rp ∈
            (gitOf { rmState with wtChangesFS := [] } rp.path).worktrees →
          wtDirOf ["ws", "dev"] rp ∈ ({ rmState with wtChangesFS := [] } : MState).dirs)) ∧
    (if (false = false ∧ guardTrips rmProfile ["ws", "dev"] []
          { rmState with wtChangesFS := [] } = true : Prop) then
      (RemoveWorkspaceM rmProfile ["ws", "dev"] "W" false false [] [] []
        { rmState with wtChangesFS := [] }).1 = { rmState with wtChangesFS := [] } ∧
      (RemoveWorkspaceM rmProfile ["ws", "dev"] "W" false false [] [] []
        { rmState with wtChangesFS := [] }).2.isSome = true
    else
      (RemoveWorkspaceM rmProfile ["ws", "dev"] "W" false false [] [] []
        { rmState with wtChangesFS := [] }).2 = none ∧
      (∀ d ∈ (RemoveWorkspaceM rmProfile ["ws", "dev"] "W" false false [] [] []
          { rmState with wtChangesFS := [] }).1.dirs,
        underDir ["ws", "dev"] d = false) ∧
      (∀ rp ∈ rmProfile, rp.name ∉ ([] : List String) →
        (false = true ∨ changedCountFS { rmState with wtChangesFS := [] }
          (wtDirOf ["ws", "dev"] rp) = 0) →
        wtDirOf ["ws", "dev"] rp ∉
          (gitOf (RemoveWorkspaceM rmProfile ["ws", "dev"] "W" false false [] [] []
            { rmState with wtChangesFS := [] }).1 rp.path).worktrees)) :=
  ⟨⟨by decide, by decide, by decide, by decide⟩,
   remove_independent_amended rmProfile ["ws", "dev"] "W" false false [] [] []
     { rmState with wtChangesFS := [] } (by decide) (by decide) (by decide) (by decide)⟩

/-!
Status Aggregator (status.go statusCmd per-repository body and
workspace.go ListWorkspaces per-repository body).

The read-only backend calls are abstracted as an arbitrary function
record so that the statements hold for every possible backend behaviour;
filesystem paths are plain strings here, as in the Go code.
-/

/-- The read-only Repository Backend calls the status computations use:
CurrentBranch, StatusChangedCount and AheadBehind of git.go, each taking
a filesystem path and either succeeding or failing. -/
structure StatusBackend where
  currentBranch : String → Except Unit String
  changedCount : String → Except Unit Nat
  aheadBehind : String → String → String → Except Unit (Nat × Nat)

/-- The RepoStatus record of workspace.go. -/
structure RepoStatusM where
  branchName : String
  changedCount : Nat
  ahead : Nat
  behind : Nat
  existsDir : Bool
deriving DecidableEq, Repr

/-- The per-repository status block of ListWorkspaces (workspace.go lines
202-234): fields default to zero values; each is set only when its read
succeeds; the ahead/behind call is made against the ORIGIN path repo.path
with the repository's default base, and an ahead/behind error leaves the
zero counts in place. -/
def listRepoStatus (b : StatusBackend) (dirs : List String) (wsPath : String)
    (repo : RepoCfg) : RepoStatusM :=
  let repoDir := wsPath ++ "/" ++ repo.name
  if dirs.contains repoDir = false then
    { branchName := "", changedCount := 0, ahead := 0, behind := 0, existsDir := false }
  else
    let branch := match b.currentBranch repoDir with
      | .ok v => v
      | .error _ => ""
    let count := match b.changedCount repoDir with
      | .ok v => v
      | .error _ => 0
    match b.aheadBehind repo.path repo.defaultBase branch with
    | .ok ab =>
      { branchName := branch, changedCount := count, ahead := ab.1, behind := ab.2,
        existsDir := true }
    | .error _ =>
      { branchName := branch, changedCount := count, ahead := 0, behind := 0,
        existsDir := true }

/-- The per-repository body of statusCmd (status.go lines 69-96): a
missing directory or a failed branch or changed-count read skips the
repository (none); an ahead/behind failure is non-fatal and prints zero
counts (lines 89-93), the call again being made against the origin path
repo.path. -/
def statusCmdRepo (b : StatusBackend) (dirs : List String) (wsPath : String)
    (repo : RepoCfg) : Option (String × String × Nat × Nat × Nat) :=
  let repoDir := wsPath ++ "/" ++ repo.name
  if dirs.contains repoDir = false then none
  else
    match b.currentBranch repoDir with
    | .error _ => none
    | .ok branch =>
      match b.changedCount repoDir with
      | .error _ => none
      | .ok count =>
        let ab := match b.aheadBehind repo.path repo.defaultBase branch with
          | .ok v => v
          | .error _ => (0, 0)
        some (repo.name, branch, count, ab.1, ab.2)

/-- C8: for EVERY backend behaviour, both status computations report the
branch name and changed-file count they read from the worktree directory
and take their ahead/behind counts from the backend's answer at the
ORIGIN repository path (repo.path) for the default base - so the result
never depends on ahead/behind at the worktree path - and an ahead/behind
failure degrades to zero counts instead of an error, leaving branch and
changed count reported. -/
theorem status_ahead_behind_origin_degrade
    (b : StatusBackend) (dirs : List String) (wsPath : String) (repo : RepoCfg)
    (br : String) (n : Nat)
    (hdir : dirs.contains (wsPath ++ "/" ++ repo.name) = true)
    (hbr : b.currentBranch (wsPath ++ "/" ++ repo.name) = .ok br)
    (hct : b.changedCount (wsPath ++ "/" ++ repo.name) = .ok n) :
    statusCmdRepo b dirs wsPath repo =
      some (repo.name, br, n,
        (match b.aheadBehind repo.path repo.defaultBase br with
          | .ok v => v
          | .error _ => (0, 0)).1,
        (match b.aheadBehind repo.path repo.defaultBase br with
          | .ok v => v
          | .error _ => (0, 0)).2) ∧
    listRepoStatus b dirs wsPath repo =
      { branchName := br, changedCount := n,
        ahead := (match b.aheadBehind repo.path repo.defaultBase br with
          | .ok v => v
          | .error _ => (0, 0)).1,
        behind := (match b.aheadBehind repo.path repo.defaultBase br with
          | .ok v => v
          | .error _ => (0, 0)).2,
        existsDir := true } := by
  constructor
  · rw [statusCmdRepo]
    simp only [hdir, hbr, hct]
    cases hab : b.aheadBehind repo.path repo.defaultBase br <;> simp
  · rw [listRepoStatus]
    simp only [hdir, hbr, hct]
    cases hab : b.aheadBehind repo.path repo.defaultBase br <;> simp

/-- Witness instantiating the status aggregation statement on a backend
whose ahead/behind call fails at the origin path. -/
theorem status_ahead_behind_origin_degrade_witness :
    ((["w/api"] : List String).contains ("w" ++ "/" ++ "api") = true ∧
      (StatusBackend.mk (fun _ => .ok "ws") (fun _ => .ok 2)
          (fun _ _ _ => .error ())).currentBranch ("w" ++ "/" ++ "api") = .ok "ws" ∧
      (StatusBackend.mk (fun _ => .ok "ws") (fun _ => .ok 2)
          (fun _ _ _ => .error ())).changedCount ("w" ++ "/" ++ "api") = .ok 2) ∧
    (statusCmdRepo
        (StatusBackend.mk (fun _ => .ok "ws") (fun _ => .ok 2) (fun _ _ _ => .error ()))
        ["w/api"] "w" ⟨"api", "origin/api", "main"⟩ =
      some (("api" : String), ("ws" : String), (2 : Nat),
        (match (StatusBackend.mk (fun _ => .ok "ws") (fun _ => .ok 2)
            (fun _ _ _ => .error ())).aheadBehind "origin/api" "main" "ws" with
          | .ok v => v
          | .error _ => ((0 : Nat), (0 : Nat))).1,
        (match (StatusBackend.mk (fun _ => .ok "ws") (fun _ => .ok 2)
            (fun _ _ _ => .error ())).aheadBehind "origin/api" "main" "ws" with
          | .ok v => v
          | .error _ => ((0 : Nat), (0 : Nat))).2) ∧
    listRepoStatus
        (StatusBackend.mk (fun _ => .ok "ws") (fun _ => .ok 2) (fun _ _ _ => .error ()))
        ["w/api"] "w" ⟨"api", "origin/api", "main"⟩ =
      { branchName := "ws", changedCount := 2,
        ahead := (match (StatusBackend.mk (fun _ => .ok "ws") (fun _ => .ok 2)
            (fun _ _ _ => .error ())).aheadBehind "origin/api" "main" "ws" with
          | .ok v => v
          | .error _ => ((0 : Nat), (0 : Nat))).1,
        behind := (match (StatusBackend.mk (fun _ => .ok "ws") (fun _ => .ok 2)
            (fun _ _ _ => .error ())).aheadBehind "origin/api" "main" "ws" with
          | .ok v => v
          | .error _ => ((0 : Nat), (0 : Nat))).2,
        existsDir := true }) :=
  ⟨⟨by decide, rfl, rfl⟩,
   status_ahead_behind_origin_degrade
     (StatusBackend.mk (fun _ => .ok "ws") (fun _ => .ok 2) (fun _ _ _ => .error ()))
     ["w/api"] "w" ⟨"api", "origin/api", "main"⟩ "ws" 2 (by decide) rfl rfl⟩

/-!
Workspace labels (workspace.go WorkspaceLabels and ParseWorkspaceLabel).

Go strings are modelled as character lists.  strings.Fields splits
around runs of characters satisfying unicode.IsSpace; strings.SplitN
with separator "/" and limit 2 splits at the first slash.  The rendered
per-repository status badges (ui.go FormatRepoStatusCompact with its
lipgloss-styled CleanBadge / ChangedBadge strings) depend on the
terminal environment, so the badge text is an abstract parameter.
-/

/-- unicode.IsSpace for the Latin-1 range Go checks first: space, tab,
newline, vertical tab, form feed, carriage return, NEL and NBSP. -/
def goIsSpace (c : Char) : Bool :=
  c = ' ' || c = '\t' || c = '\n' || c.val = 11 || c.val = 12 || c = '\r' ||
    c.val = 133 || c.val = 160

def goFieldsAux : List Char → List Char → List (List Char)
  | [], acc => if acc.isEmpty then [] else [acc.reverse]
  | c :: cs, acc =>
    if goIsSpace c then
      (if acc.isEmpty then goFieldsAux cs [] else acc.reverse :: goFieldsAux cs [])
    else goFieldsAux cs (c :: acc)

/-- strings.Fields: the maximal runs of non-space characters. -/
def goFields (s : List Char) : List (List Char) := goFieldsAux s []

/-- strings.SplitN(s, "/", 2): the text before the first slash and
everything after it; the whole string when no slash occurs. -/
def splitN2Slash (s : List Char) : List (List Char) :=
  let pre := s.takeWhile (fun c => c != '/')
  if pre.length = s.length then [s]
  else [pre, s.drop (pre.length + 1)]

/-- ParseWorkspaceLabel (workspace.go lines 261-274): first
whitespace-separated field, split at the first slash into profile and
workspace name; an empty label or a field without a slash is an error. -/
def parseWorkspaceLabel (label : List Char) : Option (List Char × List Char) :=
  match goFields label with
  | [] => none
  | p0 :: _ =>
    match splitN2Slash p0 with
    | [a, b] => some (a, b)
    | _ => none

/-- The fields of a RepoStatus that WorkspaceLabels renders. -/
structure RepoStatusL where
  repoName : List Char
  changedCount : Nat
  existsDir : Bool

/-- The fields of a WorkspaceInfo that WorkspaceLabels renders. -/
structure WsInfoL where
  profileName : List Char
  workspaceName : List Char
  repoStatuses : List RepoStatusL

/-- FormatRepoStatusCompact (ui.go): a bracketed repo-name/badge pair;
the badge string (CleanBadge or ChangedBadge of the count) is abstract. -/
def formatRepoStatusCompact (badge : Nat → List Char) (repoName : List Char)
    (changedCount : Nat) : List Char :=
  '[' :: (repoName ++ ':' :: ' ' :: (badge changedCount ++ [']']))

/-- The missing-worktree part of a label. -/
def missingPart (repoName : List Char) : List Char :=
  '[' :: (repoName ++ (": missing]".toList))

/-- The five-space separator strings.Join uses in WorkspaceLabels. -/
def sep5 : List Char := [' ', ' ', ' ', ' ', ' ']

/-- strings.Join. -/
def joinSep (sep : List Char) : List (List Char) → List Char
  | [] => []
  | [x] => x
  | x :: xs => x ++ sep ++ joinSep sep xs

/-- One label of WorkspaceLabels (workspace.go lines 244-258):
profile/workspace first, then one bracketed part per repository, joined
by five spaces. -/
def workspaceLabel (badge : Nat → List Char) (ws : WsInfoL) : List Char :=
  joinSep sep5 ((ws.profileName ++ '/' :: ws.workspaceName) ::
    ws.repoStatuses.map (fun rs =>
      if rs.existsDir then formatRepoStatusCompact badge rs.repoName rs.changedCount
      else missingPart rs.repoName))

/-- WorkspaceLabels. -/
def workspaceLabels (badge : Nat → List Char) (wss : List WsInfoL) : List (List Char) :=
  wss.map (workspaceLabel badge)

lemma goFieldsAux_nospace (t : List Char) (r acc : List Char)
    (h : ∀ c ∈ t, goIsSpace c = false) :
    goFieldsAux (t ++ r) acc = goFieldsAux r (t.reverse ++ acc) := by
  induction t generalizing acc with
  | nil => simp
  | cons c t ih =>
    have hc : goIsSpace c = false := h c (List.mem_cons_self _ _)
    simp only [List.cons_append, goFieldsAux, hc, Bool.false_eq_true, if_false]
    show goFieldsAux (t ++ r) (c :: acc) = goFieldsAux r ((c :: t).reverse ++ acc)
    rw [ih _ fun x hx => h x (List.mem_cons_of_mem _ hx)]
    simp [List.reverse_cons, List.append_assoc]

lemma goFields_of_nospace (t : List Char) (ht : t ≠ [])
    (h : ∀ c ∈ t, goIsSpace c = false) : goFields t = [t] := by
  have h2 := goFieldsAux_nospace t [] [] h
  simp only [List.append_nil] at h2
  rw [goFields, h2, goFieldsAux]
  have hrev : t.reverse.isEmpty = false := by
    simp [List.isEmpty_iff, ht]
  simp [hrev]

lemma goFields_append_space (t r : List Char) (ht : t ≠ [])
    (h : ∀ c ∈ t, goIsSpace c = false) :
    goFields (t ++ ' ' :: r) = t :: goFields r := by
  have h2 := goFieldsAux_nospace t (' ' :: r) [] h
  rw [goFields, h2, goFieldsAux]
  have hrev : (t.reverse ++ []).isEmpty = false := by
    simpa using ht
  simp [hrev, goFields, goIsSpace, ht]

lemma takeWhile_append_stop (p : Char → Bool) (t : List Char) (c : Char) (r : List Char)
    (ht : ∀ x ∈ t, p x = true) (hc : p c = false) :
    (t ++ c :: r).takeWhile p = t := by
  induction t with
  | nil => simp [List.takeWhile_cons, hc]
  | cons a t ih =>
    have ha := ht a (List.mem_cons_self _ _)
    simp [List.takeWhile_cons, ha, ih fun x hx => ht x (List.mem_cons_of_mem _ hx)]

lemma splitN2Slash_eq (p w : List Char) (hp : '/' ∉ p) :
    splitN2Slash (p ++ '/' :: w) = [p, w] := by
  have ht : ∀ x ∈ p, (x != '/') = true := by
    intro x hx
    have : x ≠ '/' := fun h => hp (h ▸ hx)
    simpa using this
  have hc : (('/' : Char) != '/') = false := by simp
  simp only [splitN2Slash, takeWhile_append_stop _ _ _ _ ht hc]
  have hlen : p.length ≠ (p ++ '/' :: w).length := by
    simp
  rw [if_neg hlen]
  have hdrop : (p ++ '/' :: w).drop (p.length + 1) = w := by
    have he : p ++ '/' :: w = (p ++ ['/']) ++ w := by simp
    have hl : (p ++ ['/']).length = p.length + 1 := by simp
    rw [he, ← hl, List.drop_left]
  rw [hdrop]

lemma parse_workspaceLabel_eq (badge : Nat → List Char) (ws : WsInfoL)
    (hp : ∀ c ∈ ws.profileName, goIsSpace c = false)
    (hw : ∀ c ∈ ws.workspaceName, goIsSpace c = false)
    (hs : '/' ∉ ws.profileName) :
    parseWorkspaceLabel (workspaceLabel badge ws) =
      some (ws.profileName, ws.workspaceName) := by
  have hfirst : ∀ c ∈ ws.profileName ++ '/' :: ws.workspaceName, goIsSpace c = false := by
    intro c hcm
    rcases List.mem_append.mp hcm with h | h
    · exact hp c h
    · rcases List.mem_cons.mp h with h | h
      · subst h
        decide
      · exact hw c h
  have hne : ws.profileName ++ '/' :: ws.workspaceName ≠ [] := by simp
  rw [workspaceLabel]
  cases hmap : ws.repoStatuses.map (fun rs =>
      if rs.existsDir then formatRepoStatusCompact badge rs.repoName rs.changedCount
      else missingPart rs.repoName) with
  | nil =>
    simp only [joinSep]
    rw [parseWorkspaceLabel, goFields_of_nospace _ hne hfirst]
    simp only [splitN2Slash_eq _ _ hs]
  | cons part rest =>
    simp only [joinSep]
    have hassoc : (ws.profileName ++ '/' :: ws.workspaceName) ++ sep5 ++
        joinSep sep5 (part :: rest) =
        (ws.profileName ++ '/' :: ws.workspaceName) ++
          (' ' :: ([' ', ' ', ' ', ' '] ++ joinSep sep5 (part :: rest))) := by
      simp [sep5, List.append_assoc]
    rw [hassoc, parseWorkspaceLabel, goFields_append_space _ _ hne hfirst]
    simp only [splitN2Slash_eq _ _ hs]

/-- C10: for workspaces whose profile and workspace names contain no
whitespace and whose profile names contain no slash, parsing the i-th
label produced by WorkspaceLabels returns exactly that workspace's
profile and workspace name, whatever the rendered badge strings are. -/
theorem workspace_label_roundtrip (badge : Nat → List Char) (wss : List WsInfoL) (i : Nat)
    (hi : i < wss.length) (hi2 : i < (workspaceLabels badge wss).length)
    (hok : ∀ ws ∈ wss, (∀ c ∈ ws.profileName, goIsSpace c = false) ∧
      (∀ c ∈ ws.workspaceName, goIsSpace c = false) ∧ '/' ∉ ws.profileName) :
    parseWorkspaceLabel ((workspaceLabels badge wss).get ⟨i, hi2⟩) =
      some ((wss.get ⟨i, hi⟩).profileName, (wss.get ⟨i, hi⟩).workspaceName) := by
  have hg : (workspaceLabels badge wss).get ⟨i, hi2⟩ =
      workspaceLabel badge (wss.get ⟨i, hi⟩) := by
    simp only [workspaceLabels, List.get_eq_getElem, List.getElem_map]
  obtain ⟨h1, h2, h3⟩ := hok _ (wss.get_mem i hi)
  rw [hg]
  exact parse_workspaceLabel_eq badge _ h1 h2 h3

/-- The two-workspace list used to witness the label round-trip. -/
def labelWss : List WsInfoL :=
  [⟨"pro".toList, "ws1".toList, [⟨"api".toList, 2, true⟩]⟩,
   ⟨"pro".toList, "ws2".toList, []⟩]

/-- Witness instantiating the label round-trip on two workspaces with a
one-repository status list and an arbitrary concrete badge. -/
theorem workspace_label_roundtrip_witness :
    ((0 : Nat) < labelWss.length ∧
      (0 : Nat) < (workspaceLabels (fun _ => "+2".toList) labelWss).length ∧
      (∀ ws ∈ labelWss, (∀ c ∈ ws.profileName, goIsSpace c = false) ∧
        (∀ c ∈ ws.workspaceName, goIsSpace c = false) ∧ '/' ∉ ws.profileName)) ∧
    parseWorkspaceLabel ((workspaceLabels (fun _ => "+2".toList) labelWss).get
        ⟨0, by decide⟩) =
      some ((labelWss.get ⟨0, by decide⟩).profileName,
        (labelWss.get ⟨0, by decide⟩).workspaceName) :=
  ⟨⟨by decide, by decide, by decide⟩,
   workspace_label_roundtrip (fun _ => "+2".toList) labelWss 0
     (by decide) (by decide) (by decide)⟩
